import Mathlib

/-!
Verification of the elixiary catalog worker core: a shallow embedding of the
index builder, catalog loader, query engine, result cache and rate limiter,
with theorems checking the natural-language specification against the code.
-/

namespace Elixiary

/-! String primitives shared by the worker modules.  JavaScript
`toLowerCase`, `trim` and regexes over `[a-z0-9]` are modeled per character;
the ASCII fragment is exact, which is what every index key and slug in this
code path consists of. -/

/-- ASCII lowercase letter or digit, the character class of the regexes
`[a-z0-9]` used throughout indexBuilder.js. -/
def isAsciiLowerAlnum (c : Char) : Bool :=
  (('a' ≤ c) && (c ≤ 'z')) || (('0' ≤ c) && (c ≤ '9'))

/-- JavaScript String.prototype.toLowerCase, modeled as per-character ASCII
lowercasing. -/
def jsToLower (s : String) : String :=
  ⟨s.data.map Char.toLower⟩

/-- JavaScript String.prototype.trim, modeled with the ASCII/Unicode
whitespace predicate of Lean. -/
def jsTrim (s : String) : String :=
  ⟨((s.data.dropWhile Char.isWhitespace).reverse.dropWhile Char.isWhitespace).reverse⟩

/-- Lookup in an association list modeling a JavaScript object or Map whose
keys are unique: the first binding for the key wins. -/
def assocFind (m : List (String × β)) (k : String) : Option β :=
  (m.find? (fun p => p.fst = k)).map Prod.snd

/-- Insert or overwrite a key in an association list, keeping the original
position of an existing key like a JavaScript object or Map assignment. -/
def assocUpsert (m : List (String × β)) (k : String) (v : β) : List (String × β) :=
  match m with
  | [] => [(k, v)]
  | (k2, v2) :: rest => if k2 = k then (k2, v) :: rest else (k2, v2) :: assocUpsert rest k v

/-- JavaScript truthiness-based default for a possibly-absent string cell:
`a || b` where undefined and the empty string are falsy. -/
def jsOrElse (a b : Option String) : Option String :=
  match a with
  | some s => if s = "" then b else some s
  | none => b

/-- JavaScript String(v || '') on a possibly-absent cell. -/
def jsStr (v : Option String) : String :=
  v.getD ""

/-- Header-name canonicalization from indexBuilder.js canon: strip the BOM,
lowercase, delete every character outside `[a-z0-9]` (the BOM is itself
non-alphanumeric, so a single filter captures both replacements). -/
def canon (s : String) : String :=
  ⟨(jsToLower s).data.filter isAsciiLowerAlnum⟩

/-- Comma splitting with JavaScript String.prototype.split semantics: the
empty string yields one empty field, consecutive commas yield empty
fields. -/
def splitComma : List Char → List Char → List String
  | cur, [] => [⟨cur.reverse⟩]
  | cur, c :: cs =>
    if c = ',' then (⟨cur.reverse⟩ : String) :: splitComma [] cs
    else splitComma (c :: cur) cs

/-- Comma-split, trim and drop empties, from indexBuilder.js splitCSV. -/
def splitCSV (s : String) : List String :=
  ((splitComma [] s.data).map jsTrim).filter (fun t => t ≠ "")

/-- Maximal runs of non-alphanumeric characters replaced by a single dash,
the `replace(/[^a-z0-9]+/g, '-')` step of slugify; the flag records being
inside a non-alphanumeric run. -/
def dashRunsAux : Bool → List Char → List Char
  | _, [] => []
  | inRun, c :: cs =>
    if isAsciiLowerAlnum c then c :: dashRunsAux false cs
    else if inRun then dashRunsAux true cs
    else '-' :: dashRunsAux true cs

/-- Collapse non-alphanumeric runs of a character list to single dashes. -/
def dashRuns (l : List Char) : List Char :=
  dashRunsAux false l

/-- Slug derivation from indexBuilder.js slugify: lowercase, collapse
non-alphanumeric runs to dashes, trim dashes, truncate to 120 characters.
The NFKD normalization step strips combining marks, which is the identity on
the ASCII fragment modeled here. -/
def slugify (s : String) : String :=
  let collapsed := dashRuns (jsToLower s).data
  let trimmed := ((collapsed.dropWhile (fun c => c = '-')).reverse.dropWhile
    (fun c => c = '-')).reverse
  ⟨trimmed.take 120⟩

/-- Run accumulator for token extraction: collect the current alphanumeric
run (reversed) and emit it when it ends. -/
def alnumRunsAux : List Char → List Char → List String
  | cur, [] => if cur = [] then [] else [⟨cur.reverse⟩]
  | cur, c :: cs =>
    if isAsciiLowerAlnum c then alnumRunsAux (c :: cur) cs
    else if cur = [] then alnumRunsAux [] cs
    else (⟨cur.reverse⟩ : String) :: alnumRunsAux [] cs

/-- Maximal `[a-z0-9]+` runs of a character list, the token extraction
regex of indexBuilder.js addTokens and tokenizeQuery. -/
def alnumRuns (l : List Char) : List String :=
  alnumRunsAux [] l

/-- Append an element to an accumulator unless already present, the
insertion-ordered Set semantics of JavaScript used by addTokens. -/
def insertUnique (acc : List String) (t : String) : List String :=
  if t ∈ acc then acc else acc ++ [t]

/-- Token accumulation from indexBuilder.js addTokens: lowercase the value,
extract alphanumeric runs, add each to the per-record token set. -/
def addTokens (acc : List String) (v : String) : List String :=
  (alnumRuns (jsToLower v).data).foldl insertUnique acc

/-- Substring containment on character lists, modeling
String.prototype.includes for the linear-scan fallback of filterIndex. -/
def charsInclude (hay sub : List Char) : Bool :=
  (List.range (hay.length + 1)).any (fun i => sub.isPrefixOf (hay.drop i))

/-! Data model of indexBuilder.js.  Machine-level collaborators that the
builder only passes through — the SHA-256 digest, JavaScript Date parsing and
JSON parsing/serialization — are injected as a Host record of pure
functions, mirroring how the worker injects fetchSheetValues. -/

/-- API_VERSION constant of indexBuilder.js. -/
def API_VERSION : String := "v1"

/-- Detail payload of a record, the `_details` object built per row. -/
structure RowDetails where
  slug : String
  name : String
  ingredients : List String
  mood_labels : List String
  tags : List String
  category : String
  instructions : String
  glass : String
  garnish : String
  prep_time : String
  difficulty : String
  image_url : String
  image_thumb : String
  date : String
  deriving DecidableEq, Repr

/-- One catalog record, the row object built by buildIndexFromSheet.
Fields beginning with an underscore in the source keep their name without
it (rowNum is `_row`, name_lc is `_name_lc`, and so on). -/
structure Row where
  rowNum : Nat
  slug : String
  name : String
  date : String
  category : String
  difficulty : String
  prep_time : String
  tags : List String
  mood_labels : List String
  image_url : String
  image_thumb : String
  name_lc : String
  tags_lc : List String
  moods_lc : List String
  category_lc : String
  details : RowDetails
  deriving DecidableEq, Repr

/-- Snapshot of the visible fields of a record, hashed into the fingerprint
by computeIndexEtag. -/
structure RowSnapshot where
  slug : String
  date : String
  category : String
  difficulty : String
  prep_time : String
  tags : List String
  mood_labels : List String
  image_url : String
  image_thumb : String
  deriving DecidableEq, Repr

/-- Host collaborators: the SHA-256 hex digest, JavaScript date parsing,
defensive JSON-array parsing (none when the text is not valid JSON or not an
array) and JSON serialization of a snapshot.  These are environment
primitives the builder treats as black boxes. -/
structure Host where
  hashHex : String → String
  toDateISO : String → String
  parseJsonArray : String → Option (List String)
  stringifySnapshot : RowSnapshot → String

/-- The built Catalog of service.js/indexBuilder.js.  The inverted-index
fields are optional because the empty-sheet return of buildIndexFromSheet
omits them entirely. -/
structure Catalog where
  rows : List Row
  etag : String
  headerMap : List (String × Nat)
  categoryIndex : Option (List (String × List Nat)) := none
  tagIndex : Option (List (String × List Nat)) := none
  moodIndex : Option (List (String × List Nat)) := none
  tokenIndex : Option (List (String × List Nat)) := none
  tokenPrefixIndex : Option (List (String × List Nat)) := none
  tokenNgramIndex : Option (List (String × List Nat)) := none
  slugIndex : Option (List (String × Nat)) := none
  deriving DecidableEq, Repr

/-- Image URL rewriting result of driveImageLinks. -/
structure ImgLinks where
  src : String
  thumb : String
  deriving DecidableEq, Repr

/-- Scan for the first occurrence of a literal pattern followed by a
non-empty capture group that runs until the stop character, the shape of the
two drive-URL regexes of driveImageLinks. -/
def scanCapture (pat : List Char) (stop : Char → Bool) : List Char → Option (List Char)
  | [] => none
  | c :: cs =>
    if pat.isPrefixOf (c :: cs) then
      let captured := ((c :: cs).drop pat.length).takeWhile (fun d => ¬ stop d)
      if captured ≠ [] then some captured else scanCapture pat stop cs
    else scanCapture pat stop cs

/-- File id extraction of driveImageLinks: a `/file/d/<id>` path segment or
an `id=` query parameter introduced by `?` or `&`. -/
def driveFileId (u : List Char) : Option (List Char) :=
  match scanCapture "/file/d/".data (fun c => c = '/') u with
  | some id => some id
  | none =>
    match scanCapture "?id=".data (fun c => c = '&') u, scanCapture "&id=".data (fun c => c = '&') u with
    | some id, _ => some id
    | none, o => o

/-- Drive-style media URL rewriting from indexBuilder.js driveImageLinks. -/
def driveImageLinks (url : String) : ImgLinks :=
  let u := jsTrim url
  if u = "" then { src := "", thumb := "" }
  else
    match driveFileId u.data with
    | none => { src := u, thumb := u }
    | some id =>
      let idS : String := ⟨id⟩
      { src := "https://drive.google.com/uc?export=view&id=" ++ idS,
        thumb := "https://drive.google.com/thumbnail?id=" ++ idS ++ "&sz=w1200" }

/-- Header map construction: `Object.fromEntries(header.map((h, i) =>
[canon(h), i]))`, where a duplicated canonical name keeps the last column. -/
def headerMapOf (header : List String) : List (String × Nat) :=
  header.enum.foldl (fun m p => assocUpsert m (canon p.snd) p.fst) []

/-- Cell access for one raw row: resolve the canonical header name to a
column index and read that column, undefined when either is missing. -/
def cellOf (map : List (String × Nat)) (r : List String) (key : String) : Option String :=
  (assocFind map key).bind (fun idx => r.get? idx)

/-- Parse of one data row from the main loop of buildIndexFromSheet
(indexBuilder.js lines 27-123); i is the loop index into values, so the
stored row number is i + 1.  A row with no derivable slug is skipped. -/
def parseRow (host : Host) (map : List (String × Nat)) (i : Nat) (r : List String) : Option Row :=
  let cell := cellOf map r
  let name := cell "name"
  let slug := slugify (jsStr name)
  if slug = "" then none
  else
    let img := driveImageLinks (jsStr (jsOrElse (cell "imageurl") (cell "image_url")))
    let category := jsStr (cell "category")
    let tags := splitCSV (jsStr (cell "tags"))
    let moods := splitCSV (jsStr (jsOrElse (cell "moodlabels") (cell "mood_labels")))
    let prepTime := jsStr (jsOrElse (cell "preptime") (cell "prep_time"))
    let difficulty := jsStr (cell "difficulty")
    let date := host.toDateISO (jsStr (cell "date"))
    let rawIngredients := jsOrElse (cell "ingredientsjson") (cell "ingredients_json")
    let ingredients := match rawIngredients with
      | some s => if s = "" then [] else (host.parseJsonArray s).getD []
      | none => []
    let instructions := jsStr (cell "instructions")
    let glass := jsStr (cell "glass")
    let garnish := jsStr (cell "garnish")
    some {
      rowNum := i + 1
      slug := slug
      name := jsStr name
      date := date
      category := category
      difficulty := difficulty
      prep_time := prepTime
      tags := tags
      mood_labels := moods
      image_url := img.src
      image_thumb := img.thumb
      name_lc := jsToLower (jsStr name)
      tags_lc := tags.map jsToLower
      moods_lc := moods.map jsToLower
      category_lc := jsToLower category
      details := {
        slug := slug, name := jsStr name, ingredients := ingredients,
        mood_labels := moods, tags := tags, category := category,
        instructions := instructions, glass := glass, garnish := garnish,
        prep_time := prepTime, difficulty := difficulty,
        image_url := img.src, image_thumb := img.thumb, date := date } }

/-- All parsed rows in sheet order: data row j sits at values index j + 1. -/
def parseRows (host : Host) (map : List (String × Nat)) (dataRows : List (List String)) : List Row :=
  dataRows.enum.filterMap (fun p => parseRow host map (p.fst + 1) p.snd)

/-- Token set of one record: name, then tags, then moods, with
insertion-ordered deduplication (the per-row Set of buildIndexFromSheet). -/
def rowTokens (r : Row) : List String :=
  (r.moods_lc).foldl addTokens ((r.tags_lc).foldl addTokens (addTokens [] r.name_lc))

/-- Append a row reference under a key, creating the key at the end on
first use: the push-to-object-of-arrays pattern of the first index pass. -/
def pushRef (m : List (String × List Row)) (k : String) (r : Row) : List (String × List Row) :=
  match m with
  | [] => [(k, [r])]
  | (k2, l) :: rest => if k2 = k then (k2, l ++ [r]) :: rest else (k2, l) :: pushRef rest k r

/-- First-pass category index over row references. -/
def categoryRefsOf (parsed : List Row) : List (String × List Row) :=
  parsed.foldl (fun m r => if r.category_lc ≠ "" then pushRef m r.category_lc r else m) []

/-- First-pass tag index over row references. -/
def tagRefsOf (parsed : List Row) : List (String × List Row) :=
  parsed.foldl (fun m r => r.tags_lc.foldl (fun m2 t => pushRef m2 t r) m) []

/-- First-pass mood index over row references. -/
def moodRefsOf (parsed : List Row) : List (String × List Row) :=
  parsed.foldl (fun m r => r.moods_lc.foldl (fun m2 t => pushRef m2 t r) m) []

/-- First-pass token index over row references. -/
def tokenRefsOf (parsed : List Row) : List (String × List Row) :=
  parsed.foldl (fun m r => (rowTokens r).foldl (fun m2 t => pushRef m2 t r) m) []

/-- First-pass slug index: the first row claiming a lowercased slug wins. -/
def slugRefsOf (parsed : List Row) : List (String × Row) :=
  parsed.foldl (fun m r =>
    let k := jsToLower r.slug
    if m.any (fun p => p.fst = k) then m else m ++ [(k, r)]) []

/-- Record comparator of buildIndexFromSheet: date descending then slug
ascending; localeCompare is modeled as code-point string order. -/
def rowOrder (a b : Row) : Prop :=
  b.date < a.date ∨ (b.date = a.date ∧ a.slug ≤ b.slug)

instance : DecidableRel rowOrder := fun a b => by
  unfold rowOrder
  infer_instance

/-- The sort of the parsed rows (date descending, slug ascending). -/
def sortRows (l : List Row) : List Row :=
  l.insertionSort rowOrder

/-- Position of a row object in the sorted record sequence, the
rowToIndex Map keyed by object identity (rows are distinguished by their
unique rowNum, so structural equality coincides with identity). -/
def rowToIndex (sorted : List Row) (r : Row) : Option Nat :=
  if r ∈ sorted then some (List.indexOf r sorted) else none

/-- Ascending sort of a position list, the `Array.from(set).sort((a, b) =>
a - b)` conversion. -/
def sortNatList (l : List Nat) : List Nat :=
  l.insertionSort (· ≤ ·)

/-- Index normalization from indexBuilder.js normalizeIndex: drop empty
keys, remap row references to sorted positions, deduplicate, sort
ascending, and drop keys whose position set came out empty. -/
def normalizeIndex (sorted : List Row) (m : List (String × List Row)) : List (String × List Nat) :=
  m.filterMap (fun p =>
    if p.fst = "" then none
    else if (p.snd.filterMap (rowToIndex sorted)).dedup = [] then none
    else some (p.fst, sortNatList (p.snd.filterMap (rowToIndex sorted)).dedup))

/-- Accumulate a posting list into a bucket map under a key, skipping empty
keys and empty lists; deduplication happens at conversion time (the
JavaScript Set deduplicates on insertion, which is observationally the
same). -/
def addToBucket (bucket : List (String × List Nat)) (key : String) (vals : List Nat) : List (String × List Nat) :=
  if key = "" ∨ vals = [] then bucket
  else
    match bucket with
    | [] => [(key, vals)]
    | (k2, l) :: rest =>
      if k2 = key then (k2, l ++ vals) :: rest else (k2, l) :: addToBucket rest key vals

/-- Prefix bucket keys of one token: the whole token when length 1, else
the 2-character prefix plus the 3-character prefix when long enough. -/
def prefixKeysOf (token : List Char) : List String :=
  if token.length = 1 then [⟨token⟩]
  else (⟨token.take 2⟩ : String) ::
    (if token.length ≥ 3 then [(⟨token.take 3⟩ : String)] else [])

/-- N-gram keys of one token: every distinct substring of size
min(3, length) down to 1, sizes descending, positions ascending. -/
def ngramKeysOf (token : List Char) : List String :=
  let len := token.length
  let maxN := min 3 len
  (((List.range maxN).reverse.map (· + 1)).foldl (fun acc size =>
    (List.range (len - size + 1)).foldl (fun acc2 i =>
      insertUnique acc2 ⟨(token.drop i).take size⟩) acc) [])

/-- Sorted-unique conversion of an accumulated bucket map, the
convertBuckets step of buildTokenAuxiliaryIndexes. -/
def convertBuckets (b : List (String × List Nat)) : List (String × List Nat) :=
  b.filterMap (fun p =>
    if p.fst = "" ∨ p.snd = [] then none else some (p.fst, sortNatList p.snd.dedup))

/-- Auxiliary prefix and n-gram indexes from
indexBuilder.js buildTokenAuxiliaryIndexes. -/
def buildTokenAuxiliaryIndexes (tokenIndex : List (String × List Nat)) :
    List (String × List Nat) × List (String × List Nat) :=
  let folded := tokenIndex.foldl (fun buckets p =>
    if p.snd = [] then buckets
    else
      let token := jsToLower p.fst
      if token.length = 0 then buckets
      else
        ((prefixKeysOf token.data).foldl (fun b k => addToBucket b k p.snd) buckets.fst,
         (ngramKeysOf token.data).foldl (fun b k => addToBucket b k p.snd) buckets.snd))
    ([], [])
  (convertBuckets folded.fst, convertBuckets folded.snd)

/-- Slug index over sorted positions, from the slugIndexOut loop. -/
def slugIndexOf (sorted : List Row) (refs : List (String × Row)) : List (String × Nat) :=
  refs.filterMap (fun p => (rowToIndex sorted p.snd).map (fun pos => (p.fst, pos)))

/-- Snapshot of a record for fingerprinting. -/
def snapshotOf (r : Row) : RowSnapshot :=
  { slug := r.slug, date := r.date, category := r.category,
    difficulty := r.difficulty, prep_time := r.prep_time, tags := r.tags,
    mood_labels := r.mood_labels, image_url := r.image_url,
    image_thumb := r.image_thumb }

/-- Fingerprint from computeIndexEtag: digest over the version, the record
count and the newline-delimited JSON snapshots of all records. -/
def computeIndexEtag (host : Host) (rows : List Row) : String :=
  host.hashHex (API_VERSION ++ ":" ++ toString rows.length ++ ":" ++
    (rows.foldl (fun acc r => acc ++ host.stringifySnapshot (snapshotOf r) ++ "\n") ""))

/-- Catalog construction from indexBuilder.js buildIndexFromSheet, applied
to the fetched cell values (a header row followed by data rows).  The
empty-sheet branch returns a catalog without any inverted-index maps. -/
def buildIndexFromSheet (host : Host) (values : List (List String)) : Catalog :=
  match values with
  | [] => { rows := [], etag := host.hashHex (API_VERSION ++ ":empty"), headerMap := [] }
  | header :: dataRows =>
    let map := headerMapOf header
    let parsed := parseRows host map dataRows
    let rows := sortRows parsed
    let aux := buildTokenAuxiliaryIndexes (normalizeIndex rows (tokenRefsOf parsed))
    { rows := rows
      etag := computeIndexEtag host rows
      headerMap := map
      categoryIndex := some (normalizeIndex rows (categoryRefsOf parsed))
      tagIndex := some (normalizeIndex rows (tagRefsOf parsed))
      moodIndex := some (normalizeIndex rows (moodRefsOf parsed))
      tokenIndex := some (normalizeIndex rows (tokenRefsOf parsed))
      tokenPrefixIndex := some aux.fst
      tokenNgramIndex := some aux.snd
      slugIndex := some (slugIndexOf rows (slugRefsOf parsed)) }

/-- Non-decreasing integer list check of validateSortedIndexMap: each entry
must not be below its predecessor (equal entries pass). -/
def nonDecreasing : List Nat → Bool
  | [] => true
  | [_] => true
  | a :: b :: rest => (a ≤ b) && nonDecreasing (b :: rest)

/-- Validation of one index map, from
indexBuilder.js validateSortedIndexMap; position lists are Nat lists here,
so the Number.isInteger check holds by type. -/
def validateSortedIndexMap (m : Option (List (String × List Nat))) : Bool :=
  match m with
  | none => false
  | some l => l.all (fun p => nonDecreasing p.snd)

/-- Auxiliary-index repair from indexBuilder.js ensureTokenAuxIndexes: with
a token index present, rebuild whichever auxiliary index fails validation
and report whether both end up valid.  Mutation of the catalog is modeled
by returning the updated catalog. -/
def ensureTokenAuxIndexes (c : Catalog) : Bool × Catalog :=
  match c.tokenIndex with
  | none => (false, c)
  | some tok =>
    let prefixValid := validateSortedIndexMap c.tokenPrefixIndex
    let ngramValid := validateSortedIndexMap c.tokenNgramIndex
    if prefixValid && ngramValid then (true, c)
    else
      let built := buildTokenAuxiliaryIndexes tok
      let c2 := if prefixValid then c else { c with tokenPrefixIndex := some built.fst }
      let c3 := if ngramValid then c2 else { c2 with tokenNgramIndex := some built.snd }
      let pv2 := prefixValid || validateSortedIndexMap (some built.fst)
      let nv2 := ngramValid || validateSortedIndexMap (some built.snd)
      (pv2 && nv2, c3)

/-- Structural validity check from indexBuilder.js hasPrecomputedMaps: all
four base inverted indexes present and validated, auxiliary indexes
ensured, slug index present (its values are Nat by type).  Returns the
possibly-repaired catalog alongside the verdict. -/
def hasPrecomputedMaps (c : Catalog) : Bool × Catalog :=
  let baseOk := validateSortedIndexMap c.categoryIndex &&
    validateSortedIndexMap c.tagIndex &&
    validateSortedIndexMap c.moodIndex &&
    validateSortedIndexMap c.tokenIndex
  if !baseOk then (false, c)
  else
    let ensured := ensureTokenAuxIndexes c
    if !ensured.fst then (false, ensured.snd)
    else
      match ensured.snd.slugIndex with
      | none => (false, ensured.snd)
      | some _ => (true, ensured.snd)

/-- Two-pointer intersection of two sorted arrays, from
indexBuilder.js intersectSortedArrays: walk both lists, emit on equality,
advance the side holding the smaller head. -/
def intersectSortedArrays [LinearOrder α] : List α → List α → List α
  | [], _ => []
  | _ :: _, [] => []
  | a :: as, b :: bs =>
    if a = b then a :: intersectSortedArrays as bs
    else if a < b then intersectSortedArrays as (b :: bs)
    else intersectSortedArrays (a :: as) bs
  termination_by a b => a.length + b.length

/-! Query engine of indexBuilder.js: tokenizeQuery, lookupTokenMatches and
filterIndex. -/

/-- Query tokenization from indexBuilder.js tokenizeQuery: lowercase and
extract alphanumeric runs. -/
def tokenizeQuery (qRaw : String) : List String :=
  alnumRuns (jsToLower qRaw).data

/-- Ordering used to sort candidate groups by ascending size. -/
def groupSizeLE (a b : List Nat) : Prop :=
  a.length ≤ b.length

instance : DecidableRel groupSizeLE := fun a b => by
  unfold groupSizeLE
  infer_instance

/-- Intersect a first group with the remaining groups in order, the
two-pointer merge loop (the source's short-circuit on an empty intermediate
result only skips intersections that would return empty anyway). -/
def intersectGroups (g : List Nat) (rest : List (List Nat)) : List Nat :=
  rest.foldl intersectSortedArrays g

/-- N-gram keys probed by lookupTokenMatches for a token missing from the
exact index: sizes from min(3, length) down to (1 for single-character
tokens, else 2), positions ascending, first-insertion deduplication. -/
def lookupNgramKeys (normalized : List Char) : List String :=
  let len := normalized.length
  let maxLen := min 3 len
  let minLen := if len = 1 then 1 else min 2 len
  ((List.range (maxLen + 1 - minLen)).map (fun j => maxLen - j)).foldl (fun acc size =>
    (List.range (len - size + 1)).foldl (fun acc2 i =>
      insertUnique acc2 ⟨(normalized.drop i).take size⟩) acc) []

/-- Candidate group for one bucket lookup: present and non-empty. -/
def bucketGroup (index : List (String × List Nat)) (key : String) : List (List Nat) :=
  match assocFind index key with
  | some arr => if arr ≠ [] then [arr] else []
  | none => []

/-- Token lookup from indexBuilder.js lookupTokenMatches: exact token-index
hit, else the prefix/n-gram fallback intersected smallest-first. -/
def lookupTokenMatches (c : Catalog) (token : String) : List Nat :=
  let normalized := jsToLower token
  if normalized = "" then []
  else
    match c.tokenIndex with
    | none => []
    | some tok =>
      let direct := (assocFind tok normalized).getD []
      if direct ≠ [] then direct
      else
        let ensured := ensureTokenAuxIndexes c
        if ¬ ensured.fst then []
        else
          let prefixIndex := (ensured.snd.tokenPrefixIndex).getD []
          let ngramIndex := (ensured.snd.tokenNgramIndex).getD []
          let prefixGroups :=
            if normalized.length = 1 then bucketGroup prefixIndex normalized
            else
              bucketGroup prefixIndex ⟨normalized.data.take 2⟩ ++
                (if normalized.length ≥ 3 then
                  bucketGroup prefixIndex ⟨normalized.data.take 3⟩ else [])
          let groups := prefixGroups ++
            (lookupNgramKeys normalized.data).foldl
              (fun acc k => acc ++ bucketGroup ngramIndex k) []
          match groups.insertionSort groupSizeLE with
          | [] => []
          | g :: gs => intersectGroups g gs

/-- Empty-group short-circuit accumulation of filterIndex: pushing an empty
predicate group aborts with the empty overall result (none). -/
def pushGroup (gs : List (List Nat)) (arr : List Nat) : Option (List (List Nat)) :=
  if arr = [] then none else some (gs ++ [arr])

/-- The predicate groups of filterIndex in source order: category, tag,
mood, then one group per query token. -/
def filterGroups (c : Catalog) (qRaw tag cat mood : String) : Option (List (List Nat)) :=
  let g0 : Option (List (List Nat)) := some []
  let g1 := if cat ≠ "" then
      g0.bind (fun gs => pushGroup gs ((assocFind ((c.categoryIndex).getD []) (jsToLower cat)).getD []))
    else g0
  let g2 := if tag ≠ "" then
      g1.bind (fun gs => pushGroup gs ((assocFind ((c.tagIndex).getD []) (jsToLower tag)).getD []))
    else g1
  let g3 := if mood ≠ "" then
      g2.bind (fun gs => pushGroup gs ((assocFind ((c.moodIndex).getD []) (jsToLower mood)).getD []))
    else g2
  (tokenizeQuery qRaw).foldl
    (fun acc token => acc.bind (fun gs => pushGroup gs (lookupTokenMatches c token))) g3

/-- Linear-scan fallback row predicate of filterIndex (the lowercased
shadow fields are always present on the embedded Row, so
ensureLowercaseFields is the identity here). -/
def linearScanKeep (q tagLc catLc moodLc : String) (row : Row) : Bool :=
  (if q ≠ "" then
    charsInclude row.name_lc.data q.data ||
      row.tags_lc.any (fun t => charsInclude t.data q.data) ||
      row.moods_lc.any (fun mo => charsInclude mo.data q.data)
  else true) &&
  (if tagLc ≠ "" then decide (tagLc ∈ row.tags_lc) else true) &&
  (if catLc ≠ "" then decide (row.category_lc = catLc) else true) &&
  (if moodLc ≠ "" then decide (moodLc ∈ row.moods_lc) else true)

/-- Filtering and search from indexBuilder.js filterIndex: linear scan when
the catalog lacks valid precomputed maps, else sorted-set intersection of
the predicate groups, smallest group first. -/
def filterIndex (idx : Catalog) (qRaw tag cat mood : String) : List Nat :=
  let rows := idx.rows
  let checked := hasPrecomputedMaps idx
  if ¬ checked.fst then
    rows.enum.filterMap (fun p =>
      if linearScanKeep (jsToLower qRaw) (jsToLower tag) (jsToLower cat) (jsToLower mood) p.snd
      then some p.fst else none)
  else
    let c := checked.snd
    match filterGroups c qRaw tag cat mood with
    | none => []
    | some [] => List.range rows.length
    | some (g :: gs) =>
      match (g :: gs).insertionSort groupSizeLE with
      | [] => []
      | h :: t => intersectGroups h t

/-! List responses of service.js handleList. -/

/-- Publicly serialized record from indexBuilder.js serializeRow: `_row`
plus every non-underscore field. -/
structure PublicRow where
  rowNum : Nat
  slug : String
  name : String
  date : String
  category : String
  difficulty : String
  prep_time : String
  tags : List String
  mood_labels : List String
  image_url : String
  image_thumb : String
  deriving DecidableEq, Repr

/-- Serialization of one record for list payloads. -/
def serializeRow (r : Row) : PublicRow :=
  { rowNum := r.rowNum, slug := r.slug, name := r.name, date := r.date,
    category := r.category, difficulty := r.difficulty,
    prep_time := r.prep_time, tags := r.tags, mood_labels := r.mood_labels,
    image_url := r.image_url, image_thumb := r.image_thumb }

/-- Known placeholder category tokens of service.js
CATEGORY_PLACEHOLDER_MAP, each mapped to a null replacement. -/
def CATEGORY_PLACEHOLDER_MAP : List (String × Option String) :=
  [("unknown_other", none), ("unknownother", none)]

/-- Separator class of normalizeCategoryKey: whitespace, slash or dash. -/
def isSepChar (c : Char) : Bool :=
  c.isWhitespace || c = '/' || c = '-'

/-- Alternatives of the `^(cat|glass|style|strength|flavor|energy|occ)_`
prefix-stripping regex, in alternation order. -/
def categoryTagNames : List String :=
  ["cat", "glass", "style", "strength", "flavor", "energy", "occ"]

/-- Strip one leading `<tag>_` marker when present. -/
def stripCategoryTag (s : List Char) : List Char :=
  match categoryTagNames.find? (fun p => (p ++ "_").data.isPrefixOf s) with
  | some p => s.drop (p.length + 1)
  | none => s

/-- Maximal separator runs replaced by a single underscore; the flag
records being inside a separator run. -/
def collapseSepsAux : Bool → List Char → List Char
  | _, [] => []
  | inRun, c :: cs =>
    if isSepChar c then
      (if inRun then collapseSepsAux true cs else '_' :: collapseSepsAux true cs)
    else c :: collapseSepsAux false cs

/-- Collapse separator runs of a character list to single underscores. -/
def collapseSeps (l : List Char) : List Char :=
  collapseSepsAux false l

/-- Category canonicalization from service.js normalizeCategoryKey: trim,
lowercase, strip a leading tag marker, normalize separators to underscores,
delete every character outside `[a-z0-9_]`. -/
def normalizeCategoryKey (v : String) : String :=
  let normalized := jsToLower (jsTrim v)
  if normalized = "" then ""
  else ⟨(collapseSeps (stripCategoryTag normalized.data)).filter
    (fun c => isAsciiLowerAlnum c || c = '_')⟩

/-- One step of the distinct-categories accumulation of handleList
(service.js lines 145-170); the accumulator pairs the seen-key set with the
emitted category list. -/
def categoriesStep (rows : List Row) (acc : List String × List String) (idxVal : Nat) :
    List String × List String :=
  match rows.get? idxVal with
  | none => acc
  | some row =>
    if row.category = "" then acc
    else if normalizeCategoryKey row.category = "" then acc
    else
      match assocFind CATEGORY_PLACEHOLDER_MAP (normalizeCategoryKey row.category) with
      | some replacement =>
        (match replacement with
          | some repl =>
            if repl ≠ "" then
              if normalizeCategoryKey repl ≠ "" ∧ normalizeCategoryKey repl ∉ acc.fst then
                (acc.fst ++ [normalizeCategoryKey repl], acc.snd ++ [repl])
              else acc
            else acc
          | none => acc)
      | none =>
        if normalizeCategoryKey row.category ∈ acc.fst then acc
        else (acc.fst ++ [normalizeCategoryKey row.category], acc.snd ++ [row.category])

/-- Distinct categories alongside search results, in first-appearance
order, placeholders excluded. -/
def computeCategories (rows : List Row) (filteredIndexes : List Nat) : List String :=
  (filteredIndexes.foldl (categoriesStep rows) ([], [])).snd

/-- Page/size clamp of service.js (the floor is the identity on the integer
inputs modeled here; NaN falls back to the lower bound upstream). -/
def clamp (n lo hi : Int) : Int :=
  max lo (min hi n)

/-- List response payload of handleList. -/
structure ListResponse where
  ok : Bool
  etag : String
  total : Nat
  page : Int
  page_size : Int
  has_more : Bool
  posts : List PublicRow
  categories : List String
  not_modified : Bool := false
  deriving DecidableEq, Repr

/-- Environment knobs read by handleList. -/
structure ListEnv where
  pageDefault : Int := 12
  pageMax : Int := 48

/-- Raw list query parameters after routing (numeric parameters already
parsed; 0 and absence are both falsy for the `qp.page || 1` defaults). -/
structure ListQueryParams where
  page : Int := 0
  page_size : Int := 0
  q : String := ""
  tag : String := ""
  category : String := ""
  mood : String := ""
  deriving DecidableEq, Repr

/-- The fresh-computation path of service.js handleList (both cache layers
missed): filter, paginate, serialize the page slice and collect distinct
categories.  Out-of-range positions, which would throw in the source, are
dropped by the Option-valued row access. -/
def handleListCompute (env : ListEnv) (qp : ListQueryParams) (idx : Catalog) : ListResponse :=
  let page := clamp (if qp.page = 0 then 1 else qp.page) 1 100000
  let size := clamp (if qp.page_size = 0 then env.pageDefault else qp.page_size) 1 env.pageMax
  let q := jsTrim qp.q
  let tag := jsTrim qp.tag
  let cat := jsTrim qp.category
  let mood := jsTrim qp.mood
  let filteredIndexes := filterIndex idx q tag cat mood
  let total := filteredIndexes.length
  let start := (page - 1) * size
  let stop := min (start + size) (total : Int)
  let sliceIndexes := if start < (total : Int) then
      (filteredIndexes.take stop.toNat).drop start.toNat else []
  let posts := sliceIndexes.filterMap (fun i => (idx.rows.get? i).map serializeRow)
  { ok := true, etag := idx.etag, total := total, page := page,
    page_size := size, has_more := stop < (total : Int), posts := posts,
    categories := computeCategories idx.rows filteredIndexes }

/-! Layer-1 list cache of cache.js: an insertion-ordered map with TTL,
capacity eviction, fingerprint invalidation and filter-state invalidation. -/

/-- One stored cache entry: the value and its insertion timestamp. -/
structure CacheEntryRec (α : Type) where
  value : α
  insertedAt : Nat
  deriving DecidableEq, Repr

/-- State owned by createListCache: the insertion-ordered entry map, the
fingerprint the layer was last populated against, and whether the previous
request had all filters cleared. -/
structure ListCacheState (α : Type) where
  entries : List (String × CacheEntryRec α)
  etagState : Option String
  lastFiltersCleared : Bool
  deriving DecidableEq, Repr

/-- Initial cache state of createListCache. -/
def initListCacheState : ListCacheState α :=
  { entries := [], etagState := none, lastFiltersCleared := true }

/-- Leading-expired prune of pruneExpiredListMemoryCache: delete expired
entries from the front, stop at the first fresh one. -/
def pruneExpiredListMemoryCache (ttlMs : Int) (now : Nat)
    (l : List (String × CacheEntryRec α)) : List (String × CacheEntryRec α) :=
  if ttlMs ≤ 0 then l
  else l.dropWhile (fun p => (now : Int) - (p.snd.insertedAt : Int) > ttlMs)

/-- Eviction loop of evictListMemoryCacheToCapacity: while at or over
capacity, delete the oldest-inserted entry. -/
def evictLoop (maxEntries : Int) (l : List (String × CacheEntryRec α)) :
    List (String × CacheEntryRec α) :=
  if (l.length : Int) ≥ maxEntries then
    match l with
    | [] => []
    | _ :: xs => evictLoop maxEntries xs
  else l
  termination_by l.length

/-- Capacity eviction: a non-positive capacity clears the map outright. -/
def evictListMemoryCacheToCapacity (maxEntries : Int)
    (l : List (String × CacheEntryRec α)) : List (String × CacheEntryRec α) :=
  if ¬ (maxEntries > 0) then []
  else evictLoop maxEntries l

/-- Fingerprint and filter-state invalidation from cache.js syncIndexState:
a changed fingerprint clears the layer; an unchanged fingerprint still
clears it when transitioning from active filters to all-cleared. -/
def syncIndexState (st : ListCacheState α) (etag : String) (filtersCleared : Bool) :
    ListCacheState α :=
  if st.etagState ≠ some etag then
    { entries := [], etagState := some etag, lastFiltersCleared := filtersCleared }
  else
    { entries := if filtersCleared ∧ ¬ st.lastFiltersCleared then [] else st.entries,
      etagState := st.etagState, lastFiltersCleared := filtersCleared }

/-- Cache read from cache.js getEntry: a TTL-expired entry is deleted on
read and misses. -/
def getEntry (st : ListCacheState α) (key : String) (ttlMs : Int) (now : Nat) :
    Option α × ListCacheState α :=
  match st.entries.find? (fun p => p.fst = key) with
  | none => (none, st)
  | some p =>
    if ttlMs > 0 ∧ (now : Int) - (p.snd.insertedAt : Int) > ttlMs then
      (none, { st with entries := st.entries.filter (fun q2 => q2.fst ≠ key) })
    else (some p.snd.value, st)

/-- Cache write from cache.js setEntry: no-op when caching is disabled;
otherwise prune leading expired entries, delete any existing entry for the
key, evict to capacity, then insert as newest. -/
def setEntry (maxEntries : Int) (st : ListCacheState α) (key : String) (value : α)
    (ttlMs : Int) (now : Nat) : ListCacheState α :=
  if ¬ (ttlMs > 0) ∨ ¬ (maxEntries > 0) then st
  else
    let l := pruneExpiredListMemoryCache ttlMs now st.entries
    let l2 := if l.any (fun p => p.fst = key) then l.filter (fun p => p.fst ≠ key) else l
    let l3 := evictListMemoryCacheToCapacity maxEntries l2
    { st with entries := l3 ++ [(key, { value := value, insertedAt := now })] }

/-- Normalized list filters from cache.js normalizeListQueryParams (the
query text also collapses whitespace runs to single spaces). -/
structure ListParams where
  q : String
  tag : String
  category : String
  mood : String
  deriving DecidableEq, Repr

/-- Whitespace runs collapsed to single spaces; the flag records being
inside a whitespace run. -/
def collapseWsAux : Bool → List Char → List Char
  | _, [] => []
  | inRun, c :: cs =>
    if c.isWhitespace then
      (if inRun then collapseWsAux true cs else ' ' :: collapseWsAux true cs)
    else c :: collapseWsAux false cs

/-- Collapse whitespace runs of a character list to single spaces. -/
def collapseWs (l : List Char) : List Char :=
  collapseWsAux false l

/-- Filter normalization: trim, lowercase, collapse whitespace in q. -/
def normalizeListQueryParams (q tag cat mood : String) : ListParams :=
  { q := ⟨collapseWs (jsToLower (jsTrim q)).data⟩,
    tag := jsToLower (jsTrim tag),
    category := jsToLower (jsTrim cat),
    mood := jsToLower (jsTrim mood) }

/-- Composite list cache key of cache.js buildListCacheKey; the JSON string
encoding of the normalized filters is modeled as plain quoting (the JSON
escaping of exotic characters does not affect any stated property). -/
def buildListCacheKey (etag : String) (params : ListParams) (page size : Int) : String :=
  "list_v1:" ++ etag ++ ":[\"" ++ params.q ++ "\",\"" ++ params.tag ++ "\",\"" ++
    params.category ++ "\",\"" ++ params.mood ++ "\"," ++ toString page ++ "," ++
    toString size ++ "]"

/-- The pre-computation cache interaction of handleList (service.js lines
105-121): normalize filters, synchronize the invalidation state against the
catalog fingerprint, build the cache key and probe layer 1. -/
def handleListCacheProbe (st : ListCacheState α) (idx : Catalog)
    (q tag cat mood : String) (page size : Int) (ttlMs : Int) (now : Nat) :
    Option α × ListCacheState α :=
  let normalized := normalizeListQueryParams q tag cat mood
  let filtersCleared := normalized.q = "" ∧ normalized.tag = "" ∧
    normalized.category = "" ∧ normalized.mood = ""
  let st2 := syncIndexState st idx.etag (decide filtersCleared)
  let cacheKey := buildListCacheKey idx.etag normalized page size
  getEntry st2 cacheKey ttlMs now

/-! Single-item resolution of service.js handlePost. -/

/-- Identifier resolution of handlePost (service.js lines 198-206): lookup
the lowercased identifier in the slug index, bounds-check the resulting
position and verify the record's own slug, yielding the resolved position
or a not-found outcome (none). -/
def handlePostResolve (idx : Catalog) (slug : String) : Option Nat :=
  match assocFind (idx.slugIndex.getD []) (jsToLower slug) with
  | none => none
  | some rowIndex =>
    match idx.rows.get? rowIndex with
    | none => none
    | some rec => if jsToLower rec.slug = jsToLower slug then some rowIndex else none

/-! Catalog loader of service.js getIndex, sequential semantics.  The
awaits of one call are resolved in order with no interleaving, so the
single-flight promise bookkeeping collapses; the interleaved behavior is
modeled separately for the single-flight claim. -/

/-- A JavaScript numeric timestamp that may be Infinity. -/
inductive JsTime
  | fin (n : Nat)
  | inf
  deriving DecidableEq, Repr

/-- Truthiness of a timestamp: 0 is falsy, Infinity truthy. -/
def JsTime.truthy : JsTime → Bool
  | .fin n => n ≠ 0
  | .inf => true

/-- Strict comparison now < t, true against Infinity. -/
def JsTime.ltNow (now : Nat) : JsTime → Bool
  | .fin n => now < n
  | .inf => true

/-- Addition of a duration (possibly Infinity) to a timestamp. -/
def JsTime.addTo (now : Nat) : JsTime → JsTime
  | .fin n => .fin (now + n)
  | .inf => .inf

/-- Configuration read by getIndex: the CACHE_TTL_SECONDS variable, parsed;
none models an unset variable, defaulted to 300. -/
structure GIConfig where
  cacheTtlSeconds : Option Int
  deriving DecidableEq, Repr

/-- In-process loader state: the cached catalog and its expiry. -/
structure GIState where
  memoryIndex : Option Catalog
  memoryIndexExpiry : JsTime
  deriving DecidableEq, Repr

/-- Background write of the serialized catalog to the persistent store; the
payload is modeled as the catalog value itself. -/
structure KVWrite where
  key : String
  payload : Catalog
  expirationTtl : Option Int
  deriving DecidableEq, Repr

/-- Truthiness checks of the persisted-catalog adoption condition: the
rows array and header map objects are always truthy, the etag string must
be non-empty, and the catalog must pass the structural validity check. -/
def kvCatalogUsable (c : Catalog) : Bool :=
  (c.etag ≠ "") && (hasPrecomputedMaps c).fst

/-- In-process expiry duration of getIndex: kvTtl seconds in milliseconds
when the configured TTL is positive, else Infinity (cache forever). -/
def ttlMsOf (ttl : Int) : JsTime :=
  if ttl > 0 then .fin ((if ttl > 0 then ttl else 0).toNat * 1000) else .inf

/-- Expiry option of the background catalog write: the expirationTtl option
is pushed only when the configured TTL is positive. -/
def kvExpiryOf (ttl : Int) : Option Int :=
  if ttl > 0 then some (if ttl > 0 then ttl else 0) else none

/-- One complete getIndex call (service.js lines 38-87) under sequential
semantics: fast path on a fresh valid in-process catalog, else adoption of
a valid persisted catalog, else a rebuild whose serialized result is
scheduled for a background store write (with no expiry option when the
configured TTL is non-positive).  Returns the catalog, the next state and
the scheduled write, if any. -/
def getIndexSeq (cfg : GIConfig) (st : GIState) (now : Nat) (kvCached : Option Catalog)
    (host : Host) (sheetValues : List (List String)) (forceRebuild : Bool) :
    Catalog × GIState × Option KVWrite :=
  let ttl : Int := (cfg.cacheTtlSeconds).getD 300
  let ttlMs : JsTime := ttlMsOf ttl
  let memHit : Option Catalog :=
    if forceRebuild then none
    else match st.memoryIndex with
      | none => none
      | some mem =>
        if st.memoryIndexExpiry.truthy && st.memoryIndexExpiry.ltNow now &&
            (hasPrecomputedMaps mem).fst
        then some (hasPrecomputedMaps mem).snd else none
  match memHit with
  | some mem => (mem, { st with memoryIndex := some mem }, none)
  | none =>
    let kvHit : Option Catalog :=
      if forceRebuild then none
      else match kvCached with
        | none => none
        | some cached => if kvCatalogUsable cached then some (hasPrecomputedMaps cached).snd else none
    match kvHit with
    | some cached =>
      (cached, { memoryIndex := some cached, memoryIndexExpiry := JsTime.addTo now ttlMs }, none)
    | none =>
      let built := buildIndexFromSheet host sheetValues
      (built,
        { memoryIndex := some built, memoryIndexExpiry := JsTime.addTo now ttlMs },
        some { key := "idx_v1", payload := built, expirationTtl := kvExpiryOf ttl })

/-! Single-flight behavior of getIndex under cooperative interleaving
(claim C3).  Each logically-concurrent call is a task advancing through the
suspension points of service.js getIndex: the synchronous memory check, the
awaited persistent-store read (which misses against a cold store), the
in-flight-promise check, and the awaited rebuild.  A schedule is the order
in which the host event loop resumes tasks. -/

/-- Phase of one getIndex task. -/
inductive SFPhase
  | start
  | awaitKV
  | building (b : Nat)
  | joined (b : Nat)
  | done (b : Nat)
  deriving DecidableEq, Repr

/-- Shared process state for the interleaving model: per-task phases, the
in-flight rebuild marker (memoryIndexPromise), the number of rebuilds ever
started (upstream fetches), the completed builds, the in-process catalog
slot, and a flag recording whether some task observed its store miss only
after a rebuild had already completed (a late resumption). -/
structure SFState where
  tasks : List SFPhase
  flight : Option Nat
  started : Nat
  completedBuilds : List Nat
  memoryBuild : Option Nat
  lateKV : Bool
  deriving DecidableEq, Repr

/-- Initial state for n cold concurrent calls: cold in-process cache, no
rebuild in flight. -/
def sfInit (n : Nat) : SFState :=
  { tasks := List.replicate n .start, flight := none, started := 0,
    completedBuilds := [], memoryBuild := none, lateKV := false }

/-- One scheduler step resuming task i.  start: run the synchronous memory
check (hit only after some rebuild populated the cache) and otherwise issue
the store read; awaitKV: the read resolves as a miss (cold store), then the
in-flight check either joins the running rebuild or starts a new one;
building: the upstream fetch resolves, the build completes, the in-flight
marker clears and the cache is populated; joined: resolves once the awaited
build has completed. -/
def sfStep (s : SFState) (i : Nat) : SFState :=
  match s.tasks.get? i with
  | none => s
  | some ph =>
    match ph with
    | .start =>
      match s.memoryBuild with
      | some b => { s with tasks := s.tasks.set i (.done b) }
      | none => { s with tasks := s.tasks.set i .awaitKV }
    | .awaitKV =>
      let late := s.lateKV || !s.completedBuilds.isEmpty
      match s.flight with
      | some b => { s with tasks := s.tasks.set i (.joined b), lateKV := late }
      | none =>
        { s with
            tasks := s.tasks.set i (.building s.started),
            flight := some s.started, started := s.started + 1, lateKV := late }
    | .building b =>
      { s with
          tasks := s.tasks.set i (.done b), flight := none,
          completedBuilds := b :: s.completedBuilds, memoryBuild := some b }
    | .joined b =>
      if b ∈ s.completedBuilds then { s with tasks := s.tasks.set i (.done b) } else s
    | .done _ => s

/-- Run a schedule from the cold n-task initial state. -/
def sfRun (n : Nat) (sched : List Nat) : SFState :=
  sched.foldl sfStep (sfInit n)

/-- Whether a phase is executing the rebuild. -/
def isBuildingPhase : SFPhase → Bool
  | .building _ => true
  | _ => false

/-- Number of tasks currently executing a rebuild. -/
def sfBuildingCount (s : SFState) : Nat :=
  (s.tasks.filter isBuildingPhase).length

/-- Reachability invariant of the single-flight model on traces where no
task resumed its store read after a rebuild had completed: builds are
numbered from zero, at most one build ever starts, at most one task is
rebuilding at any time (the in-flight marker tracks it exactly), and the
completed-build list, memory slot and flight marker stay consistent. -/
def sfInv (s : SFState) : Prop :=
  s.started ≤ 1 ∧
  (∀ ph ∈ s.tasks, ph = .start ∨ ph = .awaitKV ∨ ph = .building 0 ∨
    ph = .joined 0 ∨ ph = .done 0) ∧
  (s.completedBuilds = [] ∨ s.completedBuilds = [0]) ∧
  (s.flight = none ∨ s.flight = some 0) ∧
  (s.memoryBuild = none ∨ (s.memoryBuild = some 0 ∧ s.completedBuilds = [0])) ∧
  (s.flight = some 0 → s.started = 1 ∧ s.completedBuilds = [] ∧ sfBuildingCount s = 1) ∧
  (s.flight = none → sfBuildingCount s = 0) ∧
  (s.started = 0 → s.flight = none ∧ s.completedBuilds = [] ∧ s.memoryBuild = none ∧
    ∀ ph ∈ s.tasks, ph = .start ∨ ph = .awaitKV) ∧
  (s.completedBuilds = [0] → s.started = 1 ∧ s.flight = none) ∧
  (s.started = 1 → s.flight = some 0 ∨ s.completedBuilds = [0])

/-- Invariant of the single-flight model valid on every trace, late store
read resumptions included: at most one task is ever rebuilding, and none
is while no rebuild is marked in flight.  A rebuild only starts when the
in-flight marker is clear, and the marker clears only when the running
rebuild completes, so rebuilds never overlap even on schedules that start
a second one. -/
def sfInvAll (s : SFState) : Prop :=
  sfBuildingCount s ≤ 1 ∧ (s.flight = none → sfBuildingCount s = 0)

/-! Rate limiter of rateLimit.js.  The persistent store is an injected
read function (absent values read as none); background work — the KV count
writes and the large prune sweeps — is recorded in the state rather than
executed, since its completion callbacks never influence an admission
decision in these claims.  The live Map iterator of the bounded sweep is
modeled as a key snapshot refreshed whenever the iterator is recreated. -/

/-- One rate bucket entry of rateLimit.js. -/
structure RLEntry where
  count : Int
  expiresAt : Nat
  syncedCount : Int
  hasKvValue : Bool
  syncScheduled : Bool
  needsSyncAfterCurrent : Bool
  deriving DecidableEq, Repr

/-- Process-wide limiter state created by createRateLimiter. -/
structure RLState where
  memory : List (String × RLEntry)
  sweepSnapshot : Option (List String)
  pruneScheduled : Bool
  wasAboveThreshold : Bool
  lastPruneAt : Nat
  writes : List (String × Int × Int)
  prunesScheduled : Nat
  deriving DecidableEq, Repr

/-- Initial limiter state. -/
def rlInit : RLState :=
  { memory := [], sweepSnapshot := none, pruneScheduled := false,
    wasAboveThreshold := false, lastPruneAt := 0, writes := [], prunesScheduled := 0 }

/-- Environment of the limiter: RL_LIMIT and RL_WINDOW_SEC, parsed. -/
structure RLEnv where
  limit : Int
  windowSec : Int
  deriving DecidableEq, Repr

/-- Denied-response data of the 429 reply built by enforceRateLimit. -/
structure RLDenied where
  status : Nat
  retryAfter : Nat
  limitHeader : String
  remainingHeader : String
  resetHeader : String
  deriving DecidableEq, Repr

/-- Fuel-bounded sweep loop of pruneRateLimitMemory: walk the iterator,
recreating it from the current keys when exhausted (stopping if the map is
empty), delete entries whose window has elapsed. -/
def pruneGo (now : Nat) : Nat → List (String × RLEntry) → List String →
    List (String × RLEntry) × Option (List String)
  | 0, mem, it => (mem, some it)
  | f + 1, mem, it =>
    match it with
    | [] =>
      match mem.map Prod.fst with
      | [] => (mem, none)
      | k :: ks =>
        match assocFind mem k with
        | none => pruneGo now f mem ks
        | some e =>
          if e.expiresAt ≤ now then
            pruneGo now f (mem.filter (fun p => p.fst ≠ k)) ks
          else pruneGo now f mem ks
    | k :: ks =>
      match assocFind mem k with
      | none => pruneGo now f mem ks
      | some e =>
        if e.expiresAt ≤ now then
          pruneGo now f (mem.filter (fun p => p.fst ≠ k)) ks
        else pruneGo now f mem ks

/-- Bounded round-robin prune of rateLimit.js pruneRateLimitMemory with the
default step of 20 entries. -/
def pruneRateLimitMemory (now : Nat) (mem : List (String × RLEntry))
    (iter : Option (List String)) : List (String × RLEntry) × Option (List String) :=
  if mem.isEmpty then (mem, iter)
  else
    let it0 := match iter with
      | some l => l
      | none => mem.map Prod.fst
    let res := pruneGo now 20 mem it0
    (res.fst, if res.fst.isEmpty then none else res.snd)

/-- Threshold-triggered background sweep scheduling of
scheduleRateLimitPrune; the sweep itself runs in the background and is
recorded, not executed. -/
def scheduleRateLimitPrune (now : Nat) (st : RLState) : RLState :=
  if st.memory.length ≤ 256 then { st with wasAboveThreshold := false }
  else
    let crossed := ¬ st.wasAboveThreshold
    let st2 := { st with wasAboveThreshold := true }
    if ¬ crossed ∧ (now - st2.lastPruneAt) < 5000 then st2
    else if st2.pruneScheduled then st2
    else { st2 with
             pruneScheduled := true, lastPruneAt := now,
             prunesScheduled := st2.prunesScheduled + 1 }

/-- One admission check of rateLimit.js enforceRateLimit: prune a little,
load or refresh the bucket (seeding a cold bucket from the persistent
store), deny over the limit with retry headers, else count the request and
opportunistically schedule a durability sync. -/
def enforceRateLimit (env : RLEnv) (store : String → Option Int) (ip : String)
    (now : Nat) (st : RLState) : Option RLDenied × RLState :=
  let limit := env.limit
  let windowSec := max 1 env.windowSec
  let wNat := windowSec.toNat
  let bucket := now / 1000 / wNat
  let kvKey := "rl:" ++ ip ++ ":" ++ toString bucket
  let mapKey := ip ++ ":" ++ toString bucket
  let bucketExpiresAt := (bucket + 1) * wNat * 1000
  let pruned := pruneRateLimitMemory now st.memory st.sweepSnapshot
  let st1 := { st with memory := pruned.fst, sweepSnapshot := pruned.snd }
  let found := match assocFind st1.memory mapKey with
    | some e =>
      if e.expiresAt ≤ now then
        (none, { st1 with memory := st1.memory.filter (fun p => p.fst ≠ mapKey) })
      else (some e, st1)
    | none => (none, st1)
  let entry0 := found.fst
  let st2 := found.snd
  let seeded := match entry0 with
    | none =>
      let kvVal := store kvKey
      let kvCount : Int := kvVal.getD 0
      let e : RLEntry := {
        count := kvCount, expiresAt := bucketExpiresAt,
        syncedCount := kvCount, hasKvValue := kvVal.isSome,
        syncScheduled := false, needsSyncAfterCurrent := false }
      (e, { st2 with memory := assocUpsert st2.memory mapKey e })
    | some e =>
      let e2 := { e with expiresAt := bucketExpiresAt }
      (e2, { st2 with memory := assocUpsert st2.memory mapKey e2 })
  let entry := seeded.fst
  let st3 := seeded.snd
  if entry.count ≥ limit ∧ limit > 0 then
    let resetIn := wNat - (now / 1000) % wNat
    (some { status := 429, retryAfter := resetIn, limitHeader := toString limit,
            remainingHeader := "0", resetHeader := toString resetIn },
      st3)
  else
    let entry2 := { entry with count := entry.count + 1 }
    let st4 := { st3 with memory := assocUpsert st3.memory mapKey entry2 }
    let st5 := scheduleRateLimitPrune now st4
    let unsynced := entry2.count - entry2.syncedCount
    let nearingLimit := limit > 0 ∧ entry2.count ≥ max 1 (limit - 1)
    let shouldSync := unsynced ≥ 5 ∨ nearingLimit ∨
      (¬ entry2.hasKvValue ∧ entry2.count = 1)
    if shouldSync then
      if entry2.syncScheduled then
        let entry3 := { entry2 with needsSyncAfterCurrent := true }
        (none, { st5 with memory := assocUpsert st5.memory mapKey entry3 })
      else
        let entry3 := { entry2 with syncScheduled := true, needsSyncAfterCurrent := false }
        (none,
          { st5 with
              memory := assocUpsert st5.memory mapKey entry3,
              writes := st5.writes ++ [(kvKey, entry3.count, windowSec + 5)] })
    else (none, st5)

/-! Concrete sample values used to instantiate theorems with hypotheses. -/

/-- A host with trivial collaborators, for concrete evaluation. -/
def host0 : Host :=
  { hashHex := fun s => s, toDateISO := fun s => s,
    parseJsonArray := fun _ => none, stringifySnapshot := fun _ => "" }

/-- A concrete record. -/
def sampleRow : Row :=
  { rowNum := 2, slug := "tiki-time", name := "Tiki Time", date := "2024-01-04",
    category := "Tiki", difficulty := "Medium", prep_time := "5",
    tags := ["tropical"], mood_labels := ["happy"], image_url := "",
    image_thumb := "", name_lc := "tiki time", tags_lc := ["tropical"],
    moods_lc := ["happy"], category_lc := "tiki",
    details := {
      slug := "tiki-time", name := "Tiki Time", ingredients := [],
      mood_labels := ["happy"], tags := ["tropical"], category := "Tiki",
      instructions := "", glass := "", garnish := "", prep_time := "5",
      difficulty := "Medium", image_url := "", image_thumb := "",
      date := "2024-01-04" } }

/-- A concrete catalog without precomputed maps (list requests against it
take the linear-scan path). -/
def sampleCatalog : Catalog :=
  { rows := [sampleRow], etag := "etag1", headerMap := [] }

/-- A concrete catalog with a slug index, for item-lookup evaluation. -/
def sampleSlugCatalog : Catalog :=
  { rows := [sampleRow], etag := "etag1", headerMap := [],
    slugIndex := some [("tiki-time", 0)] }

/-- A concrete one-record sheet fetch result. -/
def sampleSheet : List (List String) :=
  [["Name"], ["Aperol Spritz"]]

/-- Every position in every value list of a bucket map is below n. -/
def mapBounded (n : Nat) (m : List (String × List Nat)) : Prop :=
  ∀ p ∈ m, ∀ pos ∈ p.snd, pos < n

/-- Well-formedness of one optional inverted-index map relative to a record
sequence of length n: every value list strictly sorted ascending (hence
duplicate-free) and every listed position a valid index below n. -/
def indexOptionWellFormed (n : Nat) (m : Option (List (String × List Nat))) : Prop :=
  ∀ p ∈ m.getD [], p.snd.Sorted (· < ·) ∧ ∀ pos ∈ p.snd, pos < n

theorem intersectSortedArrays_sublist_left [LinearOrder α] :
    ∀ (a b : List α), List.Sublist (intersectSortedArrays a b) a
  | [], _ => by
    rw [intersectSortedArrays]
  | _ :: _, [] => by
    rw [intersectSortedArrays]
    exact List.nil_sublist _
  | a :: as, b :: bs => by
    rw [intersectSortedArrays]
    by_cases hab : a = b
    · simp only [hab, if_pos rfl]
      exact List.Sublist.cons₂ _ (intersectSortedArrays_sublist_left as bs)
    · rw [if_neg hab]
      by_cases hlt : a < b
      · rw [if_pos hlt]
        exact List.Sublist.cons _ (intersectSortedArrays_sublist_left as (b :: bs))
      · rw [if_neg hlt]
        exact intersectSortedArrays_sublist_left (a :: as) bs
  termination_by a b => a.length + b.length

theorem mem_intersectSortedArrays [LinearOrder α] :
    ∀ (a b : List α), a.Sorted (· < ·) → b.Sorted (· < ·) →
      ∀ x, x ∈ intersectSortedArrays a b ↔ x ∈ a ∧ x ∈ b
  | [], b, _, _, x => by simp [intersectSortedArrays]
  | a :: as, [], _, _, x => by simp [intersectSortedArrays]
  | a :: as, b :: bs, ha, hb, x => by
    obtain ⟨haAll, haTail⟩ := List.sorted_cons.mp ha
    obtain ⟨hbAll, hbTail⟩ := List.sorted_cons.mp hb
    by_cases hab : a = b
    · subst hab
      rw [intersectSortedArrays, if_pos rfl]
      simp only [List.mem_cons]
      constructor
      · rintro (hx | hx)
        · exact ⟨Or.inl hx, Or.inl hx⟩
        · obtain ⟨h1, h2⟩ := (mem_intersectSortedArrays as bs haTail hbTail x).mp hx
          exact ⟨Or.inr h1, Or.inr h2⟩
      · rintro ⟨hx1, hx2⟩
        rcases hx1 with hx1 | hx1
        · exact Or.inl hx1
        · rcases hx2 with hx2 | hx2
          · exact Or.inl hx2
          · exact Or.inr ((mem_intersectSortedArrays as bs haTail hbTail x).mpr ⟨hx1, hx2⟩)
    · by_cases hlt : a < b
      · rw [intersectSortedArrays, if_neg hab, if_pos hlt,
          mem_intersectSortedArrays as (b :: bs) haTail hb x]
        constructor
        · rintro ⟨h1, h2⟩
          exact ⟨List.mem_cons_of_mem _ h1, h2⟩
        · rintro ⟨h1, h2⟩
          rcases List.mem_cons.mp h1 with hx | hx
          · exfalso
            rw [hx] at h2
            rcases List.mem_cons.mp h2 with hb2 | hb2
            · exact hab hb2
            · exact lt_irrefl a (lt_trans hlt (hbAll a hb2))
          · exact ⟨hx, h2⟩
      · have hba : b < a := lt_of_le_of_ne (not_lt.mp hlt) (fun h => hab h.symm)
        rw [intersectSortedArrays, if_neg hab, if_neg hlt,
          mem_intersectSortedArrays (a :: as) bs ha hbTail x]
        constructor
        · rintro ⟨h1, h2⟩
          exact ⟨h1, List.mem_cons_of_mem _ h2⟩
        · rintro ⟨h1, h2⟩
          rcases List.mem_cons.mp h2 with hx | hx
          · exfalso
            rw [hx] at h1
            rcases List.mem_cons.mp h1 with ha2 | ha2
            · exact hab ha2.symm
            · exact lt_irrefl b (lt_trans hba (haAll b ha2))
          · exact ⟨h1, hx⟩
  termination_by a b => a.length + b.length

theorem intersectSortedArrays_sorted [LinearOrder α] (a b : List α)
    (ha : a.Sorted (· < ·)) : (intersectSortedArrays a b).Sorted (· < ·) :=
  List.Pairwise.sublist (intersectSortedArrays_sublist_left a b) ha

/-- C1: for all sorted, duplicate-free integer sequences A and B,
intersectSortedArrays returns exactly the mathematical set intersection of A
and B, sorted ascending and duplicate-free (strict sortedness expresses both
ascending order and absence of duplicates). -/
theorem intersectSortedArrays_correct (a b : List Int)
    (ha : a.Sorted (· < ·)) (hb : b.Sorted (· < ·)) :
    (intersectSortedArrays a b).Sorted (· < ·) ∧
      ∀ x : Int, x ∈ intersectSortedArrays a b ↔ x ∈ a ∧ x ∈ b :=
  ⟨intersectSortedArrays_sorted a b ha, mem_intersectSortedArrays a b ha hb⟩

/-! Invariants of the built inverted indexes (claim C2). -/

/-- Sorting a duplicate-free position list yields a strictly sorted list. -/
theorem sortNatList_sorted_lt (l : List Nat) (h : l.Nodup) :
    (sortNatList l).Sorted (· < ·) :=
  (List.sorted_insertionSort _ l).lt_of_le ((List.perm_insertionSort _ l).symm.nodup h)

theorem mem_sortNatList (l : List Nat) (x : Nat) : x ∈ sortNatList l ↔ x ∈ l :=
  (List.perm_insertionSort _ l).mem_iff

/-- Positions produced by rowToIndex are valid indexes into the sorted
record sequence. -/
theorem rowToIndex_lt (sorted : List Row) (r : Row) (pos : Nat)
    (h : rowToIndex sorted r = some pos) : pos < sorted.length := by
  unfold rowToIndex at h
  by_cases hmem : r ∈ sorted
  · rw [if_pos hmem] at h
    cases h
    exact List.indexOf_lt_length.mpr hmem
  · rw [if_neg hmem] at h
    cases h

/-- Every value list produced by normalizeIndex is strictly sorted and
contains only valid positions. -/
theorem normalizeIndex_wellFormed (sorted : List Row) (m : List (String × List Row)) :
    ∀ p ∈ normalizeIndex sorted m,
      p.snd.Sorted (· < ·) ∧ ∀ pos ∈ p.snd, pos < sorted.length := by
  intro p hp
  rcases List.mem_filterMap.mp hp with ⟨q, _, hpq⟩
  by_cases h1 : q.fst = ""
  · rw [if_pos h1] at hpq
    cases hpq
  · rw [if_neg h1] at hpq
    by_cases h2 : (q.snd.filterMap (rowToIndex sorted)).dedup = []
    · rw [if_pos h2] at hpq
      cases hpq
    · rw [if_neg h2] at hpq
      cases hpq
      refine ⟨sortNatList_sorted_lt _ (List.nodup_dedup _), ?_⟩
      intro pos hpos
      have hm := List.mem_dedup.mp ((mem_sortNatList _ pos).mp hpos)
      rcases List.mem_filterMap.mp hm with ⟨r, _, hrt⟩
      exact rowToIndex_lt sorted r pos hrt

/-- Accumulating bounded postings keeps the bucket map bounded. -/
theorem addToBucket_bounded {n : Nat} {b : List (String × List Nat)} {key : String}
    {vals : List Nat} (h : mapBounded n b) (hv : ∀ pos ∈ vals, pos < n) :
    mapBounded n (addToBucket b key vals) := by
  induction b with
  | nil =>
    unfold addToBucket
    split
    · exact h
    · intro p hp
      rcases List.mem_singleton.mp hp with rfl
      exact hv
  | cons q rest ih =>
    rcases q with ⟨k2, l⟩
    unfold addToBucket
    split
    · exact h
    · have hq : ∀ pos ∈ l, pos < n := h (k2, l) (List.mem_cons_self _ _)
      have hrest : mapBounded n rest := fun p hp => h p (List.mem_cons_of_mem _ hp)
      show mapBounded n
        (if k2 = key then (k2, l ++ vals) :: rest else (k2, l) :: addToBucket rest key vals)
      by_cases hk : k2 = key
      · rw [if_pos hk]
        intro p hp
        rcases List.mem_cons.mp hp with rfl | hp2
        · intro pos hpos
          rcases List.mem_append.mp hpos with h3 | h3
          · exact hq pos h3
          · exact hv pos h3
        · exact hrest p hp2
      · rw [if_neg hk]
        intro p hp
        rcases List.mem_cons.mp hp with rfl | hp2
        · exact hq
        · exact ih hrest p hp2

/-- Folding bounded postings over any key list keeps the bucket bounded. -/
theorem foldl_addToBucket_bounded {n : Nat} (keys : List String) (vals : List Nat)
    {b : List (String × List Nat)} (h : mapBounded n b) (hv : ∀ pos ∈ vals, pos < n) :
    mapBounded n (keys.foldl (fun b2 k => addToBucket b2 k vals) b) := by
  induction keys generalizing b with
  | nil => exact h
  | cons k ks ih => exact ih (addToBucket_bounded h hv)

/-- Converted buckets are strictly sorted and within bounds. -/
theorem convertBuckets_wellFormed {n : Nat} (b : List (String × List Nat))
    (h : mapBounded n b) :
    ∀ p ∈ convertBuckets b, p.snd.Sorted (· < ·) ∧ ∀ pos ∈ p.snd, pos < n := by
  intro p hp
  rcases List.mem_filterMap.mp hp with ⟨q, hq, hpq⟩
  by_cases h1 : q.fst = "" ∨ q.snd = []
  · rw [if_pos h1] at hpq
    cases hpq
  · rw [if_neg h1] at hpq
    cases hpq
    refine ⟨sortNatList_sorted_lt _ (List.nodup_dedup _), ?_⟩
    intro pos hpos
    have hm := List.mem_dedup.mp ((mem_sortNatList _ pos).mp hpos)
    exact h q hq pos hm

/-- Both auxiliary indexes built from a bounded token index are strictly
sorted and within bounds. -/
theorem buildTokenAuxiliaryIndexes_wellFormed {n : Nat} (tokenIndex : List (String × List Nat))
    (h : mapBounded n tokenIndex) :
    (∀ p ∈ (buildTokenAuxiliaryIndexes tokenIndex).fst,
        p.snd.Sorted (· < ·) ∧ ∀ pos ∈ p.snd, pos < n) ∧
    (∀ p ∈ (buildTokenAuxiliaryIndexes tokenIndex).snd,
        p.snd.Sorted (· < ·) ∧ ∀ pos ∈ p.snd, pos < n) := by
  have hfold : ∀ (l : List (String × List Nat))
      (acc : List (String × List Nat) × List (String × List Nat)),
      (∀ p ∈ l, ∀ pos ∈ p.snd, pos < n) →
      mapBounded n acc.fst → mapBounded n acc.snd →
      mapBounded n ((l.foldl (fun buckets p =>
        if p.snd = [] then buckets
        else
          let token := jsToLower p.fst
          if token.length = 0 then buckets
          else
            ((prefixKeysOf token.data).foldl (fun b k => addToBucket b k p.snd) buckets.fst,
             (ngramKeysOf token.data).foldl (fun b k => addToBucket b k p.snd) buckets.snd))
        acc).fst) ∧
      mapBounded n ((l.foldl (fun buckets p =>
        if p.snd = [] then buckets
        else
          let token := jsToLower p.fst
          if token.length = 0 then buckets
          else
            ((prefixKeysOf token.data).foldl (fun b k => addToBucket b k p.snd) buckets.fst,
             (ngramKeysOf token.data).foldl (fun b k => addToBucket b k p.snd) buckets.snd))
        acc).snd) := by
    intro l
    induction l with
    | nil => exact fun acc _ h1 h2 => ⟨h1, h2⟩
    | cons q rest ih =>
      intro acc hl h1 h2
      simp only [List.foldl_cons]
      have hq : ∀ pos ∈ q.snd, pos < n := hl q (List.mem_cons_self _ _)
      have hrest : ∀ p ∈ rest, ∀ pos ∈ p.snd, pos < n :=
        fun p hp => hl p (List.mem_cons_of_mem _ hp)
      by_cases hempty : q.snd = []
      · rw [if_pos hempty]
        exact ih acc hrest h1 h2
      · rw [if_neg hempty]
        by_cases hlen : (jsToLower q.fst).length = 0
        · simp only [hlen, if_pos rfl]
          exact ih acc hrest h1 h2
        · simp only [if_neg hlen]
          exact ih _ hrest (foldl_addToBucket_bounded _ _ h1 hq)
            (foldl_addToBucket_bounded _ _ h2 hq)
  unfold buildTokenAuxiliaryIndexes
  obtain ⟨h1, h2⟩ := hfold tokenIndex ([], [])
    (fun p hp => h p hp) (by intro p hp; cases hp) (by intro p hp; cases hp)
  exact ⟨convertBuckets_wellFormed _ h1, convertBuckets_wellFormed _ h2⟩

/-- All six inverted indexes of a built catalog are well-formed. -/
theorem buildIndex_indexes_wellFormed (host : Host) (values : List (List String)) :
    indexOptionWellFormed (buildIndexFromSheet host values).rows.length
      (buildIndexFromSheet host values).categoryIndex ∧
    indexOptionWellFormed (buildIndexFromSheet host values).rows.length
      (buildIndexFromSheet host values).tagIndex ∧
    indexOptionWellFormed (buildIndexFromSheet host values).rows.length
      (buildIndexFromSheet host values).moodIndex ∧
    indexOptionWellFormed (buildIndexFromSheet host values).rows.length
      (buildIndexFromSheet host values).tokenIndex ∧
    indexOptionWellFormed (buildIndexFromSheet host values).rows.length
      (buildIndexFromSheet host values).tokenPrefixIndex ∧
    indexOptionWellFormed (buildIndexFromSheet host values).rows.length
      (buildIndexFromSheet host values).tokenNgramIndex := by
  match values with
  | [] =>
    refine ⟨?_, ?_, ?_, ?_, ?_, ?_⟩ <;>
      · intro p hp
        cases hp
  | header :: dataRows =>
    have hnorm := fun m => normalizeIndex_wellFormed
      (sortRows (parseRows host (headerMapOf header) dataRows)) m
    have htokBound : mapBounded (sortRows (parseRows host (headerMapOf header) dataRows)).length
        (normalizeIndex (sortRows (parseRows host (headerMapOf header) dataRows))
          (tokenRefsOf (parseRows host (headerMapOf header) dataRows))) :=
      fun p hp => (hnorm _ p hp).2
    have haux := buildTokenAuxiliaryIndexes_wellFormed _ htokBound
    refine ⟨?_, ?_, ?_, ?_, ?_, ?_⟩
    · exact fun p hp => hnorm _ p hp
    · exact fun p hp => hnorm _ p hp
    · exact fun p hp => hnorm _ p hp
    · exact fun p hp => hnorm _ p hp
    · exact fun p hp => haux.1 p hp
    · exact fun p hp => haux.2 p hp

/-- C2: for every input row set, every value list in the category, tag,
mood, token, prefix and n-gram inverted indexes of the built Catalog is
strictly sorted ascending with unique entries, and every listed position is
a valid index into the record sequence. -/
theorem buildIndex_inverted_index_invariant (host : Host) (values : List (List String)) :
    indexOptionWellFormed (buildIndexFromSheet host values).rows.length
      (buildIndexFromSheet host values).categoryIndex ∧
    indexOptionWellFormed (buildIndexFromSheet host values).rows.length
      (buildIndexFromSheet host values).tagIndex ∧
    indexOptionWellFormed (buildIndexFromSheet host values).rows.length
      (buildIndexFromSheet host values).moodIndex ∧
    indexOptionWellFormed (buildIndexFromSheet host values).rows.length
      (buildIndexFromSheet host values).tokenIndex ∧
    indexOptionWellFormed (buildIndexFromSheet host values).rows.length
      (buildIndexFromSheet host values).tokenPrefixIndex ∧
    indexOptionWellFormed (buildIndexFromSheet host values).rows.length
      (buildIndexFromSheet host values).tokenNgramIndex :=
  buildIndex_indexes_wellFormed host values

/-- Witness for C1 at a concrete input. -/
theorem intersectSortedArrays_correct_witness :
    (intersectSortedArrays [(1 : Int), 3, 5] [3, 4, 5]).Sorted (· < ·) ∧
      ∀ x : Int, x ∈ intersectSortedArrays [(1 : Int), 3, 5] [3, 4, 5] ↔
        x ∈ [(1 : Int), 3, 5] ∧ x ∈ [(3 : Int), 4, 5] :=
  intersectSortedArrays_correct [1, 3, 5] [3, 4, 5] (by decide) (by decide)

/-! Placeholder category exclusion (claim C9). -/

/-- Every value stored in the placeholder map is the null replacement. -/
theorem placeholder_values_none (k : String) (x : Option String)
    (h : assocFind CATEGORY_PLACEHOLDER_MAP k = some x) : x = none := by
  unfold assocFind CATEGORY_PLACEHOLDER_MAP at h
  by_cases h1 : ("unknown_other" : String) = k
  · rw [List.find?_cons_of_pos _ (by simpa using h1)] at h
    simp at h
    exact h.symm
  · rw [List.find?_cons_of_neg _ (by simpa using h1)] at h
    by_cases h2 : ("unknownother" : String) = k
    · rw [List.find?_cons_of_pos _ (by simpa using h2)] at h
      simp at h
      exact h.symm
    · rw [List.find?_cons_of_neg _ (by simpa using h2)] at h
      simp at h

/-- One accumulation step never emits a category whose canonical key is a
placeholder. -/
theorem categoriesStep_no_placeholder (rows : List Row) (acc : List String × List String)
    (i : Nat)
    (h : ∀ v ∈ acc.snd, assocFind CATEGORY_PLACEHOLDER_MAP (normalizeCategoryKey v) = none) :
    ∀ v ∈ (categoriesStep rows acc i).snd,
      assocFind CATEGORY_PLACEHOLDER_MAP (normalizeCategoryKey v) = none := by
  intro v hv
  unfold categoriesStep at hv
  split at hv
  · exact h v hv
  · split at hv
    · exact h v hv
    · split at hv
      · exact h v hv
      · split at hv
        · split at hv
          · exfalso
            obtain ⟨k, x, hk, hx⟩ :
                ∃ k x, assocFind CATEGORY_PLACEHOLDER_MAP k = some x ∧ x.isSome :=
              ⟨_, some _, by assumption, rfl⟩
            rw [placeholder_values_none k x hk] at hx
            cases hx
          · exact h v hv
        · split at hv
          · exact h v hv
          · rcases List.mem_append.mp hv with hv1 | hv2
            · exact h v hv1
            · rcases List.mem_singleton.mp hv2 with rfl
              assumption

/-- The distinct-categories list never contains a value canonicalizing to a
placeholder token. -/
theorem computeCategories_no_placeholder (rows : List Row) (filtered : List Nat) :
    ∀ v ∈ computeCategories rows filtered,
      assocFind CATEGORY_PLACEHOLDER_MAP (normalizeCategoryKey v) = none := by
  unfold computeCategories
  suffices hgen : ∀ (l : List Nat) (acc : List String × List String),
      (∀ v ∈ acc.snd, assocFind CATEGORY_PLACEHOLDER_MAP (normalizeCategoryKey v) = none) →
      ∀ v ∈ (l.foldl (categoriesStep rows) acc).snd,
        assocFind CATEGORY_PLACEHOLDER_MAP (normalizeCategoryKey v) = none by
    exact hgen filtered ([], []) (by intro v hv; cases hv)
  intro l
  induction l with
  | nil => exact fun acc h => h
  | cons j js ih =>
    intro acc h
    exact ih _ (categoriesStep_no_placeholder rows acc j h)

/-- C9: for every catalog and every list request, a record whose category
value canonicalizes to a known placeholder token never contributes that
value to the distinct-categories list of the list response. -/
theorem handleList_excludes_placeholder_categories (env : ListEnv)
    (qp : ListQueryParams) (idx : Catalog) :
    ∀ v ∈ (handleListCompute env qp idx).categories,
      assocFind CATEGORY_PLACEHOLDER_MAP (normalizeCategoryKey v) = none := by
  intro v hv
  have : (handleListCompute env qp idx).categories =
      computeCategories idx.rows
        (filterIndex idx (jsTrim qp.q) (jsTrim qp.tag) (jsTrim qp.category) (jsTrim qp.mood)) := rfl
  rw [this] at hv
  exact computeCategories_no_placeholder _ _ v hv

/-- Witness for C9 at a concrete input. -/
theorem handleList_excludes_placeholder_categories_witness :
    assocFind CATEGORY_PLACEHOLDER_MAP (normalizeCategoryKey "Tiki") = none :=
  handleList_excludes_placeholder_categories {} {} sampleCatalog "Tiki" (by decide)

/-! Filter-clear invalidation of the list cache (claim C5). -/

/-- C5: with the catalog fingerprint unchanged, a request with all filters
cleared arriving after the cache was last synchronized with an active
filter clears the whole layer-1 map before lookup, so every previously
cached entry misses. -/
theorem listCache_filter_clear_invalidation {α : Type} (st : ListCacheState α)
    (idx : Catalog) (page size ttlMs : Int) (now : Nat)
    (hPop : st.lastFiltersCleared = false) (hTag : st.etagState = some idx.etag) :
    (syncIndexState st idx.etag true).entries = [] ∧
    (∀ key, (getEntry (syncIndexState st idx.etag true) key ttlMs now).fst = none) ∧
    (handleListCacheProbe st idx "" "" "" "" page size ttlMs now).fst = none := by
  have hsync : (syncIndexState st idx.etag true).entries = [] := by
    unfold syncIndexState
    rw [if_neg (by simp [hTag])]
    simp [hPop]
  have hmiss : ∀ key, (getEntry (syncIndexState st idx.etag true) key ttlMs now).fst = none := by
    intro key
    unfold getEntry
    rw [hsync]
    simp [List.find?]
  exact ⟨hsync, hmiss,
    hmiss (buildListCacheKey idx.etag (normalizeListQueryParams "" "" "" "") page size)⟩

/-- Witness for C5 at a concrete input. -/
theorem listCache_filter_clear_invalidation_witness :
    (syncIndexState (⟨[("k", ⟨7, 0⟩)], some "etag1", false⟩ : ListCacheState Nat)
        sampleCatalog.etag true).entries = [] ∧
    (∀ key, (getEntry (syncIndexState
        (⟨[("k", ⟨7, 0⟩)], some "etag1", false⟩ : ListCacheState Nat)
        sampleCatalog.etag true) key 1000 5).fst = none) ∧
    (handleListCacheProbe (⟨[("k", ⟨7, 0⟩)], some "etag1", false⟩ : ListCacheState Nat)
        sampleCatalog "" "" "" "" 1 12 1000 5).fst = none :=
  listCache_filter_clear_invalidation _ sampleCatalog 1 12 1000 5 rfl rfl

/-! Capacity-eviction semantics of the list cache (claim C8). -/

/-- The eviction loop drops exactly the oldest entries: with a positive
capacity it is a front drop down to one below capacity. -/
theorem evictLoop_eq_drop {α : Type} (cap : Int) (hc : 0 < cap) :
    ∀ l : List (String × CacheEntryRec α),
      evictLoop cap l = l.drop (l.length + 1 - cap.toNat)
  | [] => by
    unfold evictLoop
    rw [if_neg (by simp; omega)]
    simp
  | x :: xs => by
    unfold evictLoop
    by_cases h : ((x :: xs).length : Int) ≥ cap
    · rw [if_pos h]
      have h2 : (x :: xs).length + 1 - cap.toNat = (xs.length + 1 - cap.toNat) + 1 := by
        simp only [List.length_cons] at h ⊢
        omega
      rw [h2, List.drop_succ_cons]
      exact evictLoop_eq_drop cap hc xs
    · rw [if_neg h]
      have h2 : (x :: xs).length + 1 - cap.toNat = 0 := by
        simp only [List.length_cons] at h ⊢
        omega
      rw [h2, List.drop_zero]
  termination_by l => l.length

/-- C8: with positive TTL and capacity, eviction removes oldest-inserted
entries first (a pure front drop in insertion order); a set re-inserts its
key as the newest entry after deleting any existing occurrence, keeping the
survivors in insertion order; a plain get never reorders entries and leaves
the map untouched whenever it returns a value. -/
theorem listCache_eviction_semantics {α : Type} (st : ListCacheState α)
    (key : String) (v : α) (maxEntries ttlMs : Int) (now : Nat)
    (hT : 0 < ttlMs) (hC : 0 < maxEntries) :
    (∀ l : List (String × CacheEntryRec α),
      evictListMemoryCacheToCapacity maxEntries l = l.drop (l.length + 1 - maxEntries.toNat)) ∧
    (∃ pre,
      (setEntry maxEntries st key v ttlMs now).entries =
        pre ++ [(key, { value := v, insertedAt := now })] ∧
      List.Sublist pre st.entries ∧ key ∉ pre.map Prod.fst) ∧
    (List.Sublist (getEntry st key ttlMs now).snd.entries st.entries ∧
      ((getEntry st key ttlMs now).fst.isSome → (getEntry st key ttlMs now).snd = st)) := by
  have hevict : ∀ l : List (String × CacheEntryRec α),
      evictListMemoryCacheToCapacity maxEntries l = l.drop (l.length + 1 - maxEntries.toNat) := by
    intro l
    unfold evictListMemoryCacheToCapacity
    rw [if_neg (by omega), evictLoop_eq_drop maxEntries hC l]
  refine ⟨hevict, ?_, ?_⟩
  · unfold setEntry
    rw [if_neg (by omega)]
    set l := pruneExpiredListMemoryCache ttlMs now st.entries with hl
    have hlsub : List.Sublist l st.entries := by
      rw [hl]
      unfold pruneExpiredListMemoryCache
      split
      · exact List.Sublist.refl _
      · exact List.dropWhile_sublist _
    set l2 := if l.any (fun p => p.fst = key) then l.filter (fun p => p.fst ≠ key) else l with hl2
    have hl2sub : List.Sublist l2 l := by
      rw [hl2]
      split
      · exact List.filter_sublist _
      · exact List.Sublist.refl _
    have hl2key : key ∉ l2.map Prod.fst := by
      intro hk
      rcases List.mem_map.mp hk with ⟨p, hp, hpk⟩
      rw [hl2] at hp
      by_cases hany : l.any (fun p => p.fst = key)
      · rw [if_pos hany] at hp
        have := List.of_mem_filter hp
        simp at this
        exact this hpk
      · rw [if_neg hany] at hp
        exact hany (List.any_eq_true.mpr ⟨p, hp, by simp [hpk]⟩)
    have hesub : List.Sublist (evictListMemoryCacheToCapacity maxEntries l2) l2 := by
      rw [hevict l2]
      exact List.drop_sublist _ _
    refine ⟨evictListMemoryCacheToCapacity maxEntries l2, rfl, ?_, ?_⟩
    · exact hesub.trans (hl2sub.trans hlsub)
    · intro hk
      rcases List.mem_map.mp hk with ⟨p, hp, hpk⟩
      exact hl2key (List.mem_map.mpr ⟨p, hesub.mem hp, hpk⟩)
  · unfold getEntry
    split
    · exact ⟨List.Sublist.refl _, fun _ => rfl⟩
    · split
      · refine ⟨List.filter_sublist _, ?_⟩
        intro hsome
        simp at hsome
      · exact ⟨List.Sublist.refl _, fun _ => rfl⟩

/-- Witness for C8 at a concrete input. -/
theorem listCache_eviction_semantics_witness :
    (∀ l : List (String × CacheEntryRec Nat),
      evictListMemoryCacheToCapacity 2 l = l.drop (l.length + 1 - (2 : Int).toNat)) ∧
    (∃ pre,
      (setEntry 2 (⟨[("a", ⟨1, 0⟩), ("b", ⟨2, 0⟩)], some "e", true⟩ : ListCacheState Nat)
          "c" 3 1000 5).entries =
        pre ++ [("c", { value := 3, insertedAt := 5 })] ∧
      List.Sublist pre [("a", ⟨1, 0⟩), ("b", ⟨2, 0⟩)] ∧ "c" ∉ pre.map Prod.fst) ∧
    (List.Sublist
      (getEntry (⟨[("a", ⟨1, 0⟩), ("b", ⟨2, 0⟩)], some "e", true⟩ : ListCacheState Nat)
          "c" 1000 5).snd.entries [("a", ⟨1, 0⟩), ("b", ⟨2, 0⟩)] ∧
      ((getEntry (⟨[("a", ⟨1, 0⟩), ("b", ⟨2, 0⟩)], some "e", true⟩ : ListCacheState Nat)
          "c" 1000 5).fst.isSome →
        (getEntry (⟨[("a", ⟨1, 0⟩), ("b", ⟨2, 0⟩)], some "e", true⟩ : ListCacheState Nat)
          "c" 1000 5).snd = ⟨[("a", ⟨1, 0⟩), ("b", ⟨2, 0⟩)], some "e", true⟩)) :=
  listCache_eviction_semantics _ "c" 3 2 1000 5 (by decide) (by decide)

/-! Empty-sheet catalog (claim C6). -/

/-- C6 counterexample: at the concrete empty fetch result, the catalog
built from an empty sheet fails the structural validity check
hasPrecomputedMaps, because the empty-sheet branch of buildIndexFromSheet
returns no inverted-index maps at all. -/
theorem buildIndex_empty_fails_validity :
    (hasPrecomputedMaps (buildIndexFromSheet host0 [])).fst = false := rfl

/-- C6 (amended): an empty sheet yields a Catalog with an empty record
sequence and a fingerprint over the version-qualified "empty" token, but
that catalog carries none of the inverted-index maps and therefore fails
the structural validity check applied to catalogs. -/
theorem buildIndex_empty_catalog (host : Host) :
    (buildIndexFromSheet host []).rows = [] ∧
    (buildIndexFromSheet host []).etag = host.hashHex (API_VERSION ++ ":empty") ∧
    (buildIndexFromSheet host []).headerMap = [] ∧
    (buildIndexFromSheet host []).categoryIndex = none ∧
    (buildIndexFromSheet host []).tagIndex = none ∧
    (buildIndexFromSheet host []).moodIndex = none ∧
    (buildIndexFromSheet host []).tokenIndex = none ∧
    (buildIndexFromSheet host []).slugIndex = none ∧
    (hasPrecomputedMaps (buildIndexFromSheet host [])).fst = false :=
  ⟨rfl, rfl, rfl, rfl, rfl, rfl, rfl, rfl, rfl⟩

/-! Case-insensitive item lookup (claim C10). -/

/-- Characters of a valid scalar value round-trip through Char.ofNat. -/
theorem char_toNat_ofNat_valid (n : Nat) (h : n.isValidChar) :
    (Char.ofNat n).toNat = n := by
  simp only [Char.ofNat, h, dite_true, Char.ofNatAux, Char.toNat]
  rfl

/-- ASCII lowercasing is idempotent per character. -/
theorem char_toLower_idem (c : Char) : c.toLower.toLower = c.toLower := by
  by_cases h : c.toNat ≥ 65 ∧ c.toNat ≤ 90
  · have hv : (c.toNat + 32).isValidChar := Or.inl (by omega)
    have h2 : (Char.ofNat (c.toNat + 32)).toNat = c.toNat + 32 :=
      char_toNat_ofNat_valid _ hv
    simp only [Char.toLower, if_pos h, h2]
    rw [if_neg (by omega)]
  · simp only [Char.toLower, if_neg h]

/-- The modeled toLowerCase is idempotent. -/
theorem jsToLower_idem (s : String) : jsToLower (jsToLower s) = jsToLower s := by
  unfold jsToLower
  apply congrArg String.mk
  rw [List.map_map]
  exact List.map_congr_left (fun c _ => char_toLower_idem c)

/-- C10: item lookup is case-insensitive in the identifier — resolving any
identifier gives the same outcome as resolving its lowercase form — and an
identifier whose lowercase form the slug index maps to a record bearing
that slug (up to case) resolves to that record rather than to not-found. -/
theorem handlePost_case_insensitive (idx : Catalog) (s : String) :
    handlePostResolve idx s = handlePostResolve idx (jsToLower s) ∧
    (∀ ri rec, assocFind (idx.slugIndex.getD []) (jsToLower s) = some ri →
      idx.rows.get? ri = some rec → jsToLower rec.slug = jsToLower s →
      handlePostResolve idx s = some ri) := by
  constructor
  · unfold handlePostResolve
    rw [jsToLower_idem]
  · intro ri rec h1 h2 h3
    unfold handlePostResolve
    rw [h1]
    show (match idx.rows.get? ri with
      | none => none
      | some rec => if jsToLower rec.slug = jsToLower s then some ri else none) = some ri
    rw [h2]
    show (if jsToLower rec.slug = jsToLower s then some ri else none) = some ri
    rw [if_pos h3]

/-- Witness for C10 at a concrete input: a mixed-case identifier resolves
to the record whose slug differs from it only in letter case. -/
theorem handlePost_case_insensitive_witness :
    handlePostResolve sampleSlugCatalog "Tiki-Time" = some 0 :=
  (handlePost_case_insensitive sampleSlugCatalog "Tiki-Time").2 0 sampleRow
    (by decide) (by decide) (by decide)

/-! Cache-forever semantics of a non-positive TTL (claim C7). -/

/-- A strictly sorted list passes the non-decreasing check. -/
theorem nonDecreasing_of_sorted : ∀ (l : List Nat), l.Sorted (· < ·) → nonDecreasing l = true
  | [], _ => rfl
  | [_], _ => rfl
  | a :: b :: rest, h => by
    obtain ⟨hall, htail⟩ := List.sorted_cons.mp h
    unfold nonDecreasing
    rw [Bool.and_eq_true]
    exact ⟨decide_eq_true (le_of_lt (hall b (List.mem_cons_self _ _))),
      nonDecreasing_of_sorted _ htail⟩

/-- A well-formed index map passes validateSortedIndexMap. -/
theorem validateSortedIndexMap_of_wellFormed {n : Nat} (m : List (String × List Nat))
    (h : ∀ p ∈ m, p.snd.Sorted (· < ·) ∧ ∀ pos ∈ p.snd, pos < n) :
    validateSortedIndexMap (some m) = true := by
  unfold validateSortedIndexMap
  rw [List.all_eq_true]
  exact fun p hp => nonDecreasing_of_sorted _ (h p hp).1

/-- With all four base maps valid, both auxiliary maps valid and a slug
index present, the structural validity check succeeds without repairing the
catalog. -/
theorem hasPrecomputedMaps_of_valid (c : Catalog)
    (h1 : validateSortedIndexMap c.categoryIndex = true)
    (h2 : validateSortedIndexMap c.tagIndex = true)
    (h3 : validateSortedIndexMap c.moodIndex = true)
    (h4 : validateSortedIndexMap c.tokenIndex = true)
    (h5 : validateSortedIndexMap c.tokenPrefixIndex = true)
    (h6 : validateSortedIndexMap c.tokenNgramIndex = true)
    (h7 : c.slugIndex.isSome) :
    hasPrecomputedMaps c = (true, c) := by
  have hens : ensureTokenAuxIndexes c = (true, c) := by
    obtain ⟨tok, htok⟩ : ∃ tok, c.tokenIndex = some tok := by
      cases hx : c.tokenIndex with
      | none => rw [hx] at h4; cases h4
      | some tok => exact ⟨tok, rfl⟩
    unfold ensureTokenAuxIndexes
    rw [htok]
    simp only [h5, h6, Bool.and_self, if_true]
  unfold hasPrecomputedMaps
  rw [h1, h2, h3, h4]
  simp only [Bool.and_self, Bool.not_true, Bool.false_eq_true, if_false, hens]
  obtain ⟨si, hsi⟩ := Option.isSome_iff_exists.mp h7
  rw [hsi]

/-- The catalog built from a non-empty sheet passes the structural validity
check as-is. -/
theorem hasPrecomputedMaps_build (host : Host) (header : List String)
    (dataRows : List (List String)) :
    hasPrecomputedMaps (buildIndexFromSheet host (header :: dataRows)) =
      (true, buildIndexFromSheet host (header :: dataRows)) := by
  obtain ⟨hc, ht, hm, htok, hp, hn⟩ := buildIndex_indexes_wellFormed host (header :: dataRows)
  apply hasPrecomputedMaps_of_valid
  · exact validateSortedIndexMap_of_wellFormed _ hc
  · exact validateSortedIndexMap_of_wellFormed _ ht
  · exact validateSortedIndexMap_of_wellFormed _ hm
  · exact validateSortedIndexMap_of_wellFormed _ htok
  · exact validateSortedIndexMap_of_wellFormed _ hp
  · exact validateSortedIndexMap_of_wellFormed _ hn
  · rfl

/-- C7: with CACHE_TTL_SECONDS configured zero or negative, a cold getIndex
call rebuilds and caches the catalog with an infinite expiry, the scheduled
persistent-store write of the serialized catalog carries no expiry option,
and every later call (at any time, with any persisted value) returns the
in-process catalog unchanged with no rebuild and no further store write. -/
theorem getIndex_nonpositive_ttl_caches_forever (t : Int) (host : Host)
    (header : List String) (dataRows : List (List String)) (now1 : Nat)
    (ht : t ≤ 0) :
    getIndexSeq ⟨some t⟩ ⟨none, .fin 0⟩ now1 none host (header :: dataRows) false =
      (buildIndexFromSheet host (header :: dataRows),
        ⟨some (buildIndexFromSheet host (header :: dataRows)), .inf⟩,
        some { key := "idx_v1", payload := buildIndexFromSheet host (header :: dataRows),
               expirationTtl := none }) ∧
    ∀ (now2 : Nat) (kv2 : Option Catalog) (values2 : List (List String)),
      getIndexSeq ⟨some t⟩ ⟨some (buildIndexFromSheet host (header :: dataRows)), .inf⟩
          now2 kv2 host values2 false =
        (buildIndexFromSheet host (header :: dataRows),
          ⟨some (buildIndexFromSheet host (header :: dataRows)), .inf⟩, none) := by
  have hms : ttlMsOf (((⟨some t⟩ : GIConfig).cacheTtlSeconds).getD 300) = .inf := by
    unfold ttlMsOf
    rw [if_neg (by simp only [Option.getD]; omega)]
  have hkv : kvExpiryOf (((⟨some t⟩ : GIConfig).cacheTtlSeconds).getD 300) = none := by
    unfold kvExpiryOf
    rw [if_neg (by simp only [Option.getD]; omega)]
  constructor
  · unfold getIndexSeq
    simp only [hms, hkv]
    rfl
  · intro now2 kv2 values2
    unfold getIndexSeq
    simp only [hms]
    simp only [hasPrecomputedMaps_build host header dataRows, JsTime.truthy, JsTime.ltNow,
      Bool.and_self, Bool.and_true, Bool.true_and, if_true, Bool.if_true_left]
    rfl

/-- Witness for C7 at a concrete input. -/
theorem getIndex_nonpositive_ttl_caches_forever_witness :
    getIndexSeq ⟨some 0⟩ ⟨none, .fin 0⟩ 17 none host0 sampleSheet false =
      (buildIndexFromSheet host0 sampleSheet,
        ⟨some (buildIndexFromSheet host0 sampleSheet), .inf⟩,
        some { key := "idx_v1", payload := buildIndexFromSheet host0 sampleSheet,
               expirationTtl := none }) ∧
    ∀ (now2 : Nat) (kv2 : Option Catalog) (values2 : List (List String)),
      getIndexSeq ⟨some 0⟩ ⟨some (buildIndexFromSheet host0 sampleSheet), .inf⟩
          now2 kv2 host0 values2 false =
        (buildIndexFromSheet host0 sampleSheet,
          ⟨some (buildIndexFromSheet host0 sampleSheet), .inf⟩, none) :=
  getIndex_nonpositive_ttl_caches_forever 0 host0 ["Name"] [["Aperol Spritz"]] 17
    (by decide)

/-! Rate limiting, concrete scenario (claim C4). -/

/-- A successful association lookup locates a member of the list. -/
theorem assocFind_mem {β : Type} (m : List (String × β)) (k : String) (v : β)
    (h : assocFind m k = some v) : (k, v) ∈ m := by
  unfold assocFind at h
  cases hf : m.find? (fun p => p.fst = k) with
  | none =>
    rw [hf] at h
    cases h
  | some p =>
    rw [hf] at h
    have hp := List.mem_of_find?_eq_some hf
    have hpk : p.fst = k := by
      have := List.find?_some hf
      simpa using this
    cases h
    have : p = (k, p.snd) := by
      rw [← hpk]
    rw [← this]
    exact hp

/-- The bounded sweep leaves a map with no elapsed windows unchanged. -/
theorem pruneGo_fresh (now : Nat) (mem : List (String × RLEntry))
    (h : ∀ p ∈ mem, ¬ (p.snd.expiresAt ≤ now)) :
    ∀ (fuel : Nat) (it : List String), (pruneGo now fuel mem it).fst = mem := by
  intro fuel
  induction fuel with
  | zero => intro it; rfl
  | succ f ih =>
    intro it
    unfold pruneGo
    split
    · split
      · rfl
      · split
        · rename_i hfind
          exact ih _
        · rename_i e hfind
          rw [if_neg (h _ (assocFind_mem _ _ _ hfind))]
          exact ih _
    · split
      · rename_i hfind
        exact ih _
      · rename_i e hfind
        rw [if_neg (h _ (assocFind_mem _ _ _ hfind))]
        exact ih _

/-- The bounded round-robin prune leaves a fresh map unchanged. -/
theorem pruneRateLimitMemory_fresh (now : Nat) (mem : List (String × RLEntry))
    (iter : Option (List String)) (h : ∀ p ∈ mem, ¬ (p.snd.expiresAt ≤ now)) :
    (pruneRateLimitMemory now mem iter).fst = mem := by
  unfold pruneRateLimitMemory
  split
  · rfl
  · exact pruneGo_fresh now mem h 20 _

/-- First admission check of the scenario: cold in-process bucket, empty
persistent store, any time inside the first window. -/
theorem rl_call1 (t1 : Nat) (h1 : t1 < 60000) :
    enforceRateLimit ⟨2, 60⟩ (fun _ => none) "1.1.1.1" t1 rlInit =
      (none, ⟨[("1.1.1.1:0", ⟨1, 60000, 0, false, true, false⟩)], none, false, false, 0,
              [("rl:1.1.1.1:0", 1, 65)], 0⟩) := by
  have hb : t1 / 1000 / (max (1 : Int) 60).toNat = 0 := by
    have h60 : (max (1 : Int) 60).toNat = 60 := rfl
    rw [h60]
    omega
  unfold enforceRateLimit
  simp only [hb]
  rfl

/-- Second admission check of the scenario: one prior admitted request in
the bucket, any time inside the first window. -/
theorem rl_call2 (t2 : Nat) (h2 : t2 < 60000) (st : RLState)
    (hmem : st.memory = [("1.1.1.1:0", ⟨1, 60000, 0, false, true, false⟩)]) :
    (enforceRateLimit ⟨2, 60⟩ (fun _ => none) "1.1.1.1" t2 st).fst = none ∧
    (enforceRateLimit ⟨2, 60⟩ (fun _ => none) "1.1.1.1" t2 st).snd.memory =
      [("1.1.1.1:0", ⟨2, 60000, 0, false, true, true⟩)] := by
  have hb : t2 / 1000 / (max (1 : Int) 60).toNat = 0 := by
    have h60 : (max (1 : Int) 60).toNat = 60 := rfl
    rw [h60]
    omega
  have hfresh : ∀ p ∈ [("1.1.1.1:0", (⟨1, 60000, 0, false, true, false⟩ : RLEntry))],
      ¬ (p.snd.expiresAt ≤ t2) := by
    intro p hp
    rcases List.mem_singleton.mp hp with rfl
    show ¬ ((60000 : Nat) ≤ t2)
    omega
  have hprune : (pruneRateLimitMemory t2
      [("1.1.1.1:0", (⟨1, 60000, 0, false, true, false⟩ : RLEntry))] st.sweepSnapshot).fst =
      [("1.1.1.1:0", (⟨1, 60000, 0, false, true, false⟩ : RLEntry))] :=
    pruneRateLimitMemory_fresh _ _ _ hfresh
  have hexp : ((60000 : Nat) ≤ t2) = False := by
    simp only [eq_iff_iff, iff_false]
    omega
  have hlook : assocFind
      [("1.1.1.1:0", (⟨1, 60000, 0, false, true, false⟩ : RLEntry))]
      ("1.1.1.1" ++ ":" ++ toString (0 : Nat)) =
      some (⟨1, 60000, 0, false, true, false⟩ : RLEntry) := rfl
  unfold enforceRateLimit
  simp only [hb, hmem, hprune, hlook, hexp, if_false]
  exact ⟨rfl, rfl⟩

/-- Third admission check of the scenario: the bucket already counts two
admitted requests, so the check denies with the retry headers. -/
theorem rl_call3 (t3 : Nat) (h3 : t3 < 60000) (st : RLState)
    (hmem : st.memory = [("1.1.1.1:0", ⟨2, 60000, 0, false, true, true⟩)]) :
    (enforceRateLimit ⟨2, 60⟩ (fun _ => none) "1.1.1.1" t3 st).fst =
      some { status := 429, retryAfter := 60 - (t3 / 1000) % 60,
             limitHeader := "2", remainingHeader := "0",
             resetHeader := toString (60 - (t3 / 1000) % 60) } := by
  have hb : t3 / 1000 / 60 = 0 := by
    omega
  have hw : (max (1 : Int) 60).toNat = 60 := rfl
  have hfresh : ∀ p ∈ [("1.1.1.1:0", (⟨2, 60000, 0, false, true, true⟩ : RLEntry))],
      ¬ (p.snd.expiresAt ≤ t3) := by
    intro p hp
    rcases List.mem_singleton.mp hp with rfl
    show ¬ ((60000 : Nat) ≤ t3)
    omega
  have hprune : (pruneRateLimitMemory t3
      [("1.1.1.1:0", (⟨2, 60000, 0, false, true, true⟩ : RLEntry))] st.sweepSnapshot).fst =
      [("1.1.1.1:0", (⟨2, 60000, 0, false, true, true⟩ : RLEntry))] :=
    pruneRateLimitMemory_fresh _ _ _ hfresh
  have hexp : ((60000 : Nat) ≤ t3) = False := by
    simp only [eq_iff_iff, iff_false]
    omega
  have hlook : assocFind
      [("1.1.1.1:0", (⟨2, 60000, 0, false, true, true⟩ : RLEntry))]
      ("1.1.1.1" ++ ":" ++ toString (0 : Nat)) =
      some (⟨2, 60000, 0, false, true, true⟩ : RLEntry) := rfl
  unfold enforceRateLimit
  simp only [hb, hw, hmem, hprune, hlook, hexp, if_false]
  rfl

/-- C4: with limit 2 and a 60-second window, for identity "1.1.1.1"
starting from a cold bucket and an empty persistent store, the first and
second admission checks within the window are allowed (the limiter returns
no response) and the third is denied with a 429 response reporting limit
"2", remaining "0" and a strictly positive retry-after. -/
theorem rateLimiter_limit2_window_scenario (t1 t2 t3 : Nat)
    (h1 : t1 < 60000) (h2 : t2 < 60000) (h3 : t3 < 60000) :
    (enforceRateLimit ⟨2, 60⟩ (fun _ => none) "1.1.1.1" t1 rlInit).fst = none ∧
    (enforceRateLimit ⟨2, 60⟩ (fun _ => none) "1.1.1.1" t2
      (enforceRateLimit ⟨2, 60⟩ (fun _ => none) "1.1.1.1" t1 rlInit).snd).fst = none ∧
    ∃ d,
      (enforceRateLimit ⟨2, 60⟩ (fun _ => none) "1.1.1.1" t3
        (enforceRateLimit ⟨2, 60⟩ (fun _ => none) "1.1.1.1" t2
          (enforceRateLimit ⟨2, 60⟩ (fun _ => none) "1.1.1.1" t1 rlInit).snd).snd).fst =
        some d ∧
      d.status = 429 ∧ d.limitHeader = "2" ∧ d.remainingHeader = "0" ∧
        0 < d.retryAfter := by
  have hc1 := rl_call1 t1 h1
  have hc2 := rl_call2 t2 h2
    (enforceRateLimit ⟨2, 60⟩ (fun _ => none) "1.1.1.1" t1 rlInit).snd (by rw [hc1])
  have hc3 := rl_call3 t3 h3
    (enforceRateLimit ⟨2, 60⟩ (fun _ => none) "1.1.1.1" t2
      (enforceRateLimit ⟨2, 60⟩ (fun _ => none) "1.1.1.1" t1 rlInit).snd).snd hc2.2
  refine ⟨by rw [hc1], hc2.1, ⟨_, hc3, rfl, rfl, rfl, ?_⟩⟩
  show 0 < 60 - (t3 / 1000) % 60
  have hmod : (t3 / 1000) % 60 < 60 := Nat.mod_lt _ (by omega)
  omega

/-- Witness for C4 at a concrete input. -/
theorem rateLimiter_limit2_window_scenario_witness :
    (enforceRateLimit ⟨2, 60⟩ (fun _ => none) "1.1.1.1" 0 rlInit).fst = none ∧
    (enforceRateLimit ⟨2, 60⟩ (fun _ => none) "1.1.1.1" 5
      (enforceRateLimit ⟨2, 60⟩ (fun _ => none) "1.1.1.1" 0 rlInit).snd).fst = none ∧
    ∃ d,
      (enforceRateLimit ⟨2, 60⟩ (fun _ => none) "1.1.1.1" 9
        (enforceRateLimit ⟨2, 60⟩ (fun _ => none) "1.1.1.1" 5
          (enforceRateLimit ⟨2, 60⟩ (fun _ => none) "1.1.1.1" 0 rlInit).snd).snd).fst =
        some d ∧
      d.status = 429 ∧ d.limitHeader = "2" ∧ d.remainingHeader = "0" ∧
        0 < d.retryAfter :=
  rateLimiter_limit2_window_scenario 0 5 9 (by decide) (by decide) (by decide)

/-! Single-flight rebuild (claim C3). -/

/-- Setting one element exchanges its contribution to a filtered length. -/
theorem filter_length_set {α : Type} (p : α → Bool) :
    ∀ (l : List α) (i : Nat) (a old : α), l.get? i = some old →
      ((l.set i a).filter p).length + (if p old then 1 else 0) =
        (l.filter p).length + (if p a then 1 else 0)
  | [], i, _, _, h => by cases h
  | x :: xs, 0, a, old, h => by
    cases h
    simp only [List.set]
    by_cases hpa : p a <;> by_cases hpx : p x <;>
      simp [List.filter_cons, hpa, hpx]
  | x :: xs, i + 1, a, old, h => by
    have h2 : xs.get? i = some old := h
    have hrec := filter_length_set p xs i a old h2
    simp only [List.set]
    by_cases hpx : p x <;> simp [List.filter_cons, hpx] <;> omega

/-- The late-resumption flag is never reset by a step. -/
theorem sfStep_late_mono (s : SFState) (i : Nat)
    (h : (sfStep s i).lateKV = false) : s.lateKV = false := by
  unfold sfStep at h
  split at h
  · exact h
  · split at h
    · split at h
      · exact h
      · exact h
    · split at h
      · exact (Bool.or_eq_false_iff.mp h).1
      · exact (Bool.or_eq_false_iff.mp h).1
    · exact h
    · split at h
      · exact h
      · exact h
    · exact h

/-- The late-resumption flag of a run bounds the flag of every earlier
state. -/
theorem sfFoldl_late (steps : List Nat) : ∀ (s : SFState),
    (steps.foldl sfStep s).lateKV = false → s.lateKV = false := by
  induction steps with
  | nil => exact fun _ h => h
  | cons j js ih => exact fun s h => sfStep_late_mono s j (ih _ h)

/-- The cold initial state satisfies the invariant. -/
theorem sfInv_init (n : Nat) : sfInv (sfInit n) := by
  have hcount : sfBuildingCount (sfInit n) = 0 := by
    unfold sfBuildingCount sfInit
    have : (List.replicate n SFPhase.start).filter isBuildingPhase = [] := by
      rw [List.filter_eq_nil_iff]
      intro a ha
      rw [List.eq_of_mem_replicate ha]
      exact Bool.false_ne_true
    rw [this]
    rfl
  refine ⟨Nat.zero_le 1, ?_, Or.inl rfl, Or.inl rfl, Or.inl rfl, ?_, fun _ => hcount,
    ?_, ?_, ?_⟩
  · intro ph hph
    rw [List.eq_of_mem_replicate hph]
    exact Or.inl rfl
  · intro h
    cases h
  · intro _
    exact ⟨rfl, rfl, rfl, fun ph hph => Or.inl (List.eq_of_mem_replicate hph)⟩
  · intro h
    cases h
  · intro h
    cases h

/-- One scheduler step preserves the invariant, provided the stepped state
still has the late-resumption flag unset. -/
theorem sfStep_inv (s : SFState) (i : Nat) (hs : sfInv s)
    (hlate2 : (sfStep s i).lateKV = false) : sfInv (sfStep s i) := by
  obtain ⟨hst, htk, hcb, hfl, hmb, hf1, hf0, hz, hc1, hs1⟩ := hs
  cases hget : s.tasks.get? i with
  | none =>
    have heq : sfStep s i = s := by
      unfold sfStep
      rw [hget]
    rw [heq]
    exact ⟨hst, htk, hcb, hfl, hmb, hf1, hf0, hz, hc1, hs1⟩
  | some ph =>
    have hmemtask : ph ∈ s.tasks := List.get?_mem hget
    have hph := htk ph hmemtask
    have hsetmem : ∀ (newph : SFPhase), (newph = .start ∨ newph = .awaitKV ∨
        newph = .building 0 ∨ newph = .joined 0 ∨ newph = .done 0) →
        ∀ ph2 ∈ s.tasks.set i newph, ph2 = .start ∨ ph2 = .awaitKV ∨
          ph2 = .building 0 ∨ ph2 = .joined 0 ∨ ph2 = .done 0 := by
      intro newph hnew ph2 hph2
      rcases List.mem_or_eq_of_mem_set hph2 with h | h
      · exact htk ph2 h
      · rw [h]
        exact hnew
    cases ph with
    | start =>
      rcases hmb with hmbe | ⟨hmbe, hcb0⟩
      · have heq : sfStep s i = { s with tasks := s.tasks.set i .awaitKV } := by
          unfold sfStep
          rw [hget, hmbe]
        rw [heq]
        have hbc : sfBuildingCount { s with tasks := s.tasks.set i SFPhase.awaitKV } =
            sfBuildingCount s := by
          unfold sfBuildingCount
          simpa [isBuildingPhase] using
            filter_length_set isBuildingPhase s.tasks i SFPhase.awaitKV .start hget
        refine ⟨hst, hsetmem _ (Or.inr (Or.inl rfl)), hcb, hfl, Or.inl hmbe,
          ?_, ?_, ?_, hc1, hs1⟩
        · intro h
          obtain ⟨a, b, c⟩ := hf1 h
          exact ⟨a, b, by rw [hbc]; exact c⟩
        · intro h
          rw [hbc]
          exact hf0 h
        · intro h
          obtain ⟨a, b, c, d⟩ := hz h
          refine ⟨a, b, c, ?_⟩
          intro ph2 hph2
          rcases List.mem_or_eq_of_mem_set hph2 with h2 | h2
          · exact d ph2 h2
          · rw [h2]
            exact Or.inr rfl
      · have heq : sfStep s i = { s with tasks := s.tasks.set i (.done 0) } := by
          unfold sfStep
          rw [hget, hmbe]
        rw [heq]
        have hbc : sfBuildingCount { s with tasks := s.tasks.set i (SFPhase.done 0) } =
            sfBuildingCount s := by
          unfold sfBuildingCount
          simpa [isBuildingPhase] using
            filter_length_set isBuildingPhase s.tasks i (SFPhase.done 0) .start hget
        have hfn : s.flight = none := (hc1 hcb0).2
        refine ⟨hst, hsetmem _ (Or.inr (Or.inr (Or.inr (Or.inr rfl)))), hcb, hfl,
          Or.inr ⟨hmbe, hcb0⟩, ?_, ?_, ?_, fun _ => hc1 hcb0, hs1⟩
        · intro h
          rw [hfn] at h
          cases h
        · intro _
          rw [hbc]
          exact hf0 hfn
        · intro h
          have h0 : s.started = 0 := h
          have h1 := (hc1 hcb0).1
          omega
    | awaitKV =>
      rcases hfl with hfle | hfle
      · have heq : sfStep s i = { s with
            tasks := s.tasks.set i (.building s.started),
            flight := some s.started, started := s.started + 1,
            lateKV := s.lateKV || !s.completedBuilds.isEmpty } := by
          unfold sfStep
          rw [hget, hfle]
        rw [heq] at hlate2 ⊢
        have hcemp : s.completedBuilds = [] := by
          have h2 := (Bool.or_eq_false_iff.mp hlate2).2
          simpa using h2
        have hstz : s.started = 0 := by
          rcases Nat.lt_or_ge s.started 1 with h | h
          · omega
          · exfalso
            have h1 : s.started = 1 := by omega
            rcases hs1 h1 with h2 | h2
            · rw [hfle] at h2
              cases h2
            · rw [hcemp] at h2
              cases h2
        rw [hstz]
        have hbc := filter_length_set isBuildingPhase s.tasks i
          (SFPhase.building 0) .awaitKV hget
        simp [isBuildingPhase] at hbc
        have hcnt0 : sfBuildingCount s = 0 := hf0 hfle
        have hbc2 : ((s.tasks.set i (SFPhase.building 0)).filter isBuildingPhase).length = 1 := by
          unfold sfBuildingCount at hcnt0
          omega
        refine ⟨Nat.le_refl 1, hsetmem _ (Or.inr (Or.inr (Or.inl rfl))), Or.inl hcemp,
          Or.inr rfl, ?_, ?_, ?_, ?_, ?_, ?_⟩
        · rcases hmb with h | ⟨h, hc⟩
          · exact Or.inl h
          · rw [hc] at hcemp
            cases hcemp
        · intro _
          exact ⟨rfl, hcemp, hbc2⟩
        · intro h
          cases h
        · intro h
          have h0 : (0 : Nat) + 1 = 0 := h
          omega
        · intro h
          rw [hcemp] at h
          cases h
        · intro _
          exact Or.inl rfl
      · have heq : sfStep s i = { s with
            tasks := s.tasks.set i (.joined 0),
            lateKV := s.lateKV || !s.completedBuilds.isEmpty } := by
          unfold sfStep
          rw [hget, hfle]
        rw [heq]
        have hbc : sfBuildingCount { s with
            tasks := s.tasks.set i (SFPhase.joined 0),
            lateKV := s.lateKV || !s.completedBuilds.isEmpty } = sfBuildingCount s := by
          unfold sfBuildingCount
          simpa [isBuildingPhase] using
            filter_length_set isBuildingPhase s.tasks i (SFPhase.joined 0) .awaitKV hget
        refine ⟨hst, hsetmem _ (Or.inr (Or.inr (Or.inr (Or.inl rfl)))), hcb,
          Or.inr hfle, hmb, ?_, ?_, ?_, ?_, hs1⟩
        · intro _
          obtain ⟨a, b2, c⟩ := hf1 hfle
          exact ⟨a, b2, by rw [hbc]; exact c⟩
        · intro h
          rw [hfle] at h
          cases h
        · intro h
          rw [(hz h).1] at hfle
          cases hfle
        · intro h
          exact ⟨(hc1 h).1, by rw [(hc1 h).2] at hfle; cases hfle⟩
    | building b =>
      have hb0 : b = 0 := by
        rcases hph with h | h | h | h | h
        · cases h
        · cases h
        · exact SFPhase.building.inj h
        · cases h
        · cases h
      subst hb0
      have hone : 1 ≤ sfBuildingCount s := by
        unfold sfBuildingCount
        have hmemf : SFPhase.building 0 ∈ s.tasks.filter isBuildingPhase :=
          List.mem_filter.mpr ⟨hmemtask, rfl⟩
        exact List.length_pos.mpr (List.ne_nil_of_mem hmemf)
      have hfs : s.flight = some 0 := by
        rcases hfl with h | h
        · exfalso
          have := hf0 h
          omega
        · exact h
      obtain ⟨hst1, hcemp, hcnt1⟩ := hf1 hfs
      have heq : sfStep s i = { s with
          tasks := s.tasks.set i (.done 0), flight := none,
          completedBuilds := 0 :: s.completedBuilds, memoryBuild := some 0 } := by
        unfold sfStep
        rw [hget]
      rw [heq, hcemp]
      have hbc := filter_length_set isBuildingPhase s.tasks i
        (SFPhase.done 0) (.building 0) hget
      simp [isBuildingPhase] at hbc
      have hbc2 : ((s.tasks.set i (SFPhase.done 0)).filter isBuildingPhase).length = 0 := by
        unfold sfBuildingCount at hcnt1
        omega
      refine ⟨hst, hsetmem _ (Or.inr (Or.inr (Or.inr (Or.inr rfl)))), Or.inr rfl,
        Or.inl rfl, Or.inr ⟨rfl, rfl⟩, ?_, fun _ => hbc2, ?_, ?_, ?_⟩
      · intro h
        cases h
      · intro h
        have h0 : s.started = 0 := h
        omega
      · intro _
        exact ⟨hst1, rfl⟩
      · intro _
        exact Or.inr rfl
    | joined b =>
      have hb0 : b = 0 := by
        rcases hph with h | h | h | h | h
        · cases h
        · cases h
        · cases h
        · exact SFPhase.joined.inj h
        · cases h
      subst hb0
      by_cases hmemc : 0 ∈ s.completedBuilds
      · have heq : sfStep s i = { s with tasks := s.tasks.set i (.done 0) } := by
          unfold sfStep
          rw [hget]
          show (if 0 ∈ s.completedBuilds then
            { s with tasks := s.tasks.set i (SFPhase.done 0) } else s) = _
          rw [if_pos hmemc]
        rw [heq]
        have hcb0 : s.completedBuilds = [0] := by
          rcases hcb with h | h
          · rw [h] at hmemc
            cases hmemc
          · exact h
        have hbc : sfBuildingCount { s with tasks := s.tasks.set i (SFPhase.done 0) } =
            sfBuildingCount s := by
          unfold sfBuildingCount
          simpa [isBuildingPhase] using
            filter_length_set isBuildingPhase s.tasks i (SFPhase.done 0) (.joined 0) hget
        have hfn : s.flight = none := (hc1 hcb0).2
        refine ⟨hst, hsetmem _ (Or.inr (Or.inr (Or.inr (Or.inr rfl)))), hcb, hfl, hmb,
          ?_, ?_, ?_, fun _ => hc1 hcb0, hs1⟩
        · intro h
          rw [hfn] at h
          cases h
        · intro _
          rw [hbc]
          exact hf0 hfn
        · intro h
          have h2 := (hz h).2.1
          rw [h2] at hcb0
          cases hcb0
      · have heq : sfStep s i = s := by
          unfold sfStep
          rw [hget]
          show (if 0 ∈ s.completedBuilds then
            { s with tasks := s.tasks.set i (SFPhase.done 0) } else s) = _
          rw [if_neg hmemc]
        rw [heq]
        exact ⟨hst, htk, hcb, hfl, hmb, hf1, hf0, hz, hc1, hs1⟩
    | done b =>
      have heq : sfStep s i = s := by
        unfold sfStep
        rw [hget]
      rw [heq]
      exact ⟨hst, htk, hcb, hfl, hmb, hf1, hf0, hz, hc1, hs1⟩

/-- Every state of a run whose final late-resumption flag is unset
satisfies the invariant. -/
theorem sfRun_inv (n : Nat) (sched : List Nat)
    (hlate : (sfRun n sched).lateKV = false) : sfInv (sfRun n sched) := by
  induction sched using List.reverseRecOn with
  | nil => exact sfInv_init n
  | append_singleton xs j ih =>
    have hfold : sfRun n (xs ++ [j]) = sfStep (sfRun n xs) j := by
      unfold sfRun
      rw [List.foldl_append]
      rfl
    rw [hfold] at hlate ⊢
    exact sfStep_inv _ j (ih (sfStep_late_mono _ j hlate)) hlate

/-- A step never changes the number of tasks. -/
theorem sfStep_tasks_length (s : SFState) (i : Nat) :
    (sfStep s i).tasks.length = s.tasks.length := by
  unfold sfStep
  split
  · rfl
  · split
    · split <;> simp [List.length_set]
    · split <;> simp [List.length_set]
    · simp [List.length_set]
    · split <;> simp [List.length_set]
    · rfl

/-- A run over n tasks always has n tasks. -/
theorem sfRun_tasks_length (n : Nat) (sched : List Nat) :
    (sfRun n sched).tasks.length = n := by
  induction sched using List.reverseRecOn with
  | nil => exact List.length_replicate _ _
  | append_singleton xs j ih =>
    have hfold : sfRun n (xs ++ [j]) = sfStep (sfRun n xs) j := by
      unfold sfRun
      rw [List.foldl_append]
      rfl
    rw [hfold, sfStep_tasks_length]
    exact ih

/-- The cold initial state satisfies the unconditional invariant. -/
theorem sfInvAll_init (n : Nat) : sfInvAll (sfInit n) := by
  have hcount : sfBuildingCount (sfInit n) = 0 := by
    unfold sfBuildingCount sfInit
    have h : (List.replicate n SFPhase.start).filter isBuildingPhase = [] := by
      rw [List.filter_eq_nil_iff]
      intro a ha
      rw [List.eq_of_mem_replicate ha]
      exact Bool.false_ne_true
    rw [h]
    rfl
  exact ⟨by rw [hcount]; exact Nat.zero_le 1, fun _ => hcount⟩

/-- One scheduler step preserves the unconditional invariant on every
trace: a rebuild only starts while no other is in flight, and the
in-flight marker clears only when the running rebuild completes. -/
theorem sfStep_invAll (s : SFState) (i : Nat) (hs : sfInvAll s) :
    sfInvAll (sfStep s i) := by
  obtain ⟨hle, hflz⟩ := hs
  cases hget : s.tasks.get? i with
  | none =>
    have heq : sfStep s i = s := by
      unfold sfStep
      rw [hget]
    rw [heq]
    exact ⟨hle, hflz⟩
  | some ph =>
    have hmemtask : ph ∈ s.tasks := List.get?_mem hget
    cases ph with
    | start =>
      cases hmb : s.memoryBuild with
      | none =>
        have heq : sfStep s i = { s with tasks := s.tasks.set i .awaitKV } := by
          unfold sfStep
          rw [hget, hmb]
        rw [heq]
        have hbc : sfBuildingCount { s with tasks := s.tasks.set i SFPhase.awaitKV } =
            sfBuildingCount s := by
          unfold sfBuildingCount
          simpa [isBuildingPhase] using
            filter_length_set isBuildingPhase s.tasks i SFPhase.awaitKV .start hget
        exact ⟨by rw [hbc]; exact hle, fun h => by rw [hbc]; exact hflz h⟩
      | some b =>
        have heq : sfStep s i = { s with tasks := s.tasks.set i (.done b) } := by
          unfold sfStep
          rw [hget, hmb]
        rw [heq]
        have hbc : sfBuildingCount { s with tasks := s.tasks.set i (SFPhase.done b) } =
            sfBuildingCount s := by
          unfold sfBuildingCount
          simpa [isBuildingPhase] using
            filter_length_set isBuildingPhase s.tasks i (SFPhase.done b) .start hget
        exact ⟨by rw [hbc]; exact hle, fun h => by rw [hbc]; exact hflz h⟩
    | awaitKV =>
      cases hfl : s.flight with
      | some b =>
        have heq : sfStep s i = { s with
            tasks := s.tasks.set i (.joined b),
            lateKV := s.lateKV || !s.completedBuilds.isEmpty } := by
          unfold sfStep
          rw [hget, hfl]
        rw [heq]
        have hbc : sfBuildingCount { s with
            tasks := s.tasks.set i (SFPhase.joined b),
            lateKV := s.lateKV || !s.completedBuilds.isEmpty } = sfBuildingCount s := by
          unfold sfBuildingCount
          simpa [isBuildingPhase] using
            filter_length_set isBuildingPhase s.tasks i (SFPhase.joined b) .awaitKV hget
        exact ⟨by rw [hbc]; exact hle, fun h => by rw [hbc]; exact hflz h⟩
      | none =>
        have heq : sfStep s i = { s with
            tasks := s.tasks.set i (.building s.started),
            flight := some s.started, started := s.started + 1,
            lateKV := s.lateKV || !s.completedBuilds.isEmpty } := by
          unfold sfStep
          rw [hget, hfl]
        rw [heq]
        have hcnt0 : sfBuildingCount s = 0 := hflz hfl
        have hbc := filter_length_set isBuildingPhase s.tasks i
          (SFPhase.building s.started) .awaitKV hget
        simp [isBuildingPhase] at hbc
        have hbc2 : ((s.tasks.set i (SFPhase.building s.started)).filter
            isBuildingPhase).length = 1 := by
          unfold sfBuildingCount at hcnt0
          omega
        refine ⟨Nat.le_of_eq hbc2, ?_⟩
        intro h
        cases h
    | building b =>
      have heq : sfStep s i = { s with
          tasks := s.tasks.set i (.done b), flight := none,
          completedBuilds := b :: s.completedBuilds, memoryBuild := some b } := by
        unfold sfStep
        rw [hget]
      rw [heq]
      have hone : 1 ≤ sfBuildingCount s := by
        unfold sfBuildingCount
        have hmemf : SFPhase.building b ∈ s.tasks.filter isBuildingPhase :=
          List.mem_filter.mpr ⟨hmemtask, rfl⟩
        exact List.length_pos.mpr (List.ne_nil_of_mem hmemf)
      have hbc := filter_length_set isBuildingPhase s.tasks i
        (SFPhase.done b) (.building b) hget
      simp [isBuildingPhase] at hbc
      have hbc2 : ((s.tasks.set i (SFPhase.done b)).filter isBuildingPhase).length = 0 := by
        unfold sfBuildingCount at hle hone
        omega
      refine ⟨?_, fun _ => hbc2⟩
      show ((s.tasks.set i (SFPhase.done b)).filter isBuildingPhase).length ≤ 1
      omega
    | joined b =>
      by_cases hmemc : b ∈ s.completedBuilds
      · have heq : sfStep s i = { s with tasks := s.tasks.set i (.done b) } := by
          unfold sfStep
          rw [hget]
          show (if b ∈ s.completedBuilds then
            { s with tasks := s.tasks.set i (SFPhase.done b) } else s) = _
          rw [if_pos hmemc]
        rw [heq]
        have hbc : sfBuildingCount { s with tasks := s.tasks.set i (SFPhase.done b) } =
            sfBuildingCount s := by
          unfold sfBuildingCount
          simpa [isBuildingPhase] using
            filter_length_set isBuildingPhase s.tasks i (SFPhase.done b) (.joined b) hget
        exact ⟨by rw [hbc]; exact hle, fun h => by rw [hbc]; exact hflz h⟩
      · have heq : sfStep s i = s := by
          unfold sfStep
          rw [hget]
          show (if b ∈ s.completedBuilds then
            { s with tasks := s.tasks.set i (SFPhase.done b) } else s) = _
          rw [if_neg hmemc]
        rw [heq]
        exact ⟨hle, hflz⟩
    | done b =>
      have heq : sfStep s i = s := by
        unfold sfStep
        rw [hget]
      rw [heq]
      exact ⟨hle, hflz⟩

/-- Every run of the model satisfies the unconditional invariant: at no
point of any schedule, late resumptions included, are two rebuilds in
flight at once. -/
theorem sfRun_invAll (n : Nat) (sched : List Nat) : sfInvAll (sfRun n sched) := by
  induction sched using List.reverseRecOn with
  | nil => exact sfInvAll_init n
  | append_singleton xs j ih =>
    have hfold : sfRun n (xs ++ [j]) = sfStep (sfRun n xs) j := by
      unfold sfRun
      rw [List.foldl_append]
      rfl
    rw [hfold]
    exact sfStep_invAll _ j ih

/-- C3: for n logically-concurrent getIndex calls against a cold cache
(no in-process catalog, cold persistent store).  First, under EVERY
cooperative schedule — including those where a call observes its store
miss only after a rebuild has already completed — at no intermediate point
is more than one rebuild in flight.  Second, under any schedule in which
no call resumes its store read late (lateKV stays unset) and every call
completes: exactly one upstream rebuild is ever started and every call
resolves to the catalog of that single build. -/
theorem getIndex_single_flight (n : Nat) (sched : List Nat) (hn : 0 < n) :
    (∀ pre suf, sched = pre ++ suf → sfBuildingCount (sfRun n pre) ≤ 1) ∧
    ((sfRun n sched).lateKV = false →
      (∀ ph ∈ (sfRun n sched).tasks, ∃ b, ph = SFPhase.done b) →
      (sfRun n sched).started = 1 ∧
        ∀ ph ∈ (sfRun n sched).tasks, ph = SFPhase.done 0) := by
  constructor
  · intro pre suf hps
    exact (sfRun_invAll n pre).1
  · intro hlate hdone
    obtain ⟨hst, htk, hcb, hfl, hmb, hf1, hf0, hz, hc1, hs1⟩ := sfRun_inv n sched hlate
    have halldone : ∀ ph ∈ (sfRun n sched).tasks, ph = SFPhase.done 0 := by
      intro ph hph
      obtain ⟨b, hb⟩ := hdone ph hph
      rcases htk ph hph with h | h | h | h | h
      · rw [h] at hb
        cases hb
      · rw [h] at hb
        cases hb
      · rw [h] at hb
        cases hb
      · rw [h] at hb
        cases hb
      · exact h
    refine ⟨?_, halldone⟩
    have hlen := sfRun_tasks_length n sched
    have hne : (sfRun n sched).tasks ≠ [] := by
      intro h
      rw [h] at hlen
      simp at hlen
      omega
    obtain ⟨ph, hph⟩ := List.exists_mem_of_ne_nil _ hne
    have hdone0 := halldone ph hph
    by_cases h0 : (sfRun n sched).started = 0
    · exfalso
      obtain ⟨_, _, _, hall⟩ := hz h0
      rcases hall ph hph with h | h <;> rw [hdone0] at h <;> cases h
    · omega

/-- C3 counterexample: two logically-concurrent cold calls under the
concrete schedule in which the second call's persistent-store read resolves
only after the first call's rebuild has completed.  Both calls complete,
yet two rebuilds are started (two upstream fetches) and the two calls
resolve to catalogs of different builds — so the claim as stated, over all
cooperative schedules, is false. -/
theorem getIndex_single_flight_counterexample :
    (sfRun 2 [0, 1, 0, 0, 1, 1]).started = 2 ∧
    (sfRun 2 [0, 1, 0, 0, 1, 1]).tasks = [SFPhase.done 0, SFPhase.done 1] := by
  decide

/-- Witness for C3 at a concrete input: two concurrent calls under the
schedule where both pass the memory check and the store read, the first
starts the rebuild, the second joins it, the build completes, and the
joiner resolves; no prefix of the schedule has more than one rebuild in
flight. -/
theorem getIndex_single_flight_witness :
    (∀ pre suf, ([0, 1, 0, 1, 0, 1] : List Nat) = pre ++ suf →
      sfBuildingCount (sfRun 2 pre) ≤ 1) ∧
    ((sfRun 2 [0, 1, 0, 1, 0, 1]).started = 1 ∧
      ∀ ph ∈ (sfRun 2 [0, 1, 0, 1, 0, 1]).tasks, ph = SFPhase.done 0) := by
  obtain ⟨h1, h2⟩ := getIndex_single_flight 2 [0, 1, 0, 1, 0, 1] (by decide)
  refine ⟨h1, h2 (by decide) ?_⟩
  intro ph hph
  have h : (sfRun 2 [0, 1, 0, 1, 0, 1]).tasks = [SFPhase.done 0, SFPhase.done 0] := rfl
  rw [h] at hph
  rcases List.mem_cons.mp hph with h2b | h2b
  · exact ⟨0, h2b⟩
  · rcases List.mem_cons.mp h2b with h3 | h3
    · exact ⟨0, h3⟩
    · cases h3

end Elixiary
